import Mathlib

/-!
Verification of the HomeworkPrinter equation-worksheet generator.

The Python source is shallowly embedded as follows:
* strings are `List Char`; Python's `str.replace` is `pyReplace`;
* Python's `str(int)` is `intChars`;
* the process-wide random source is an explicit stream `Nat → Int` of the
  values drawn by `weighted_random` (whose support is `[-20, 20]`), and the
  unbounded rejection loop takes explicit fuel;
* page coordinates (reportlab points) are exact rationals, with
  `mm = 72 / 25.4` exactly as in `reportlab.lib.units`; every comparison in
  the source is far from a tie, so exact rationals and Python floats agree
  on all branches taken.
-/

abbrev Str := List Char

/-- Decision procedure for ASCII decimal digits. -/
def isDigitCh (c : Char) : Bool := '0' ≤ c && c ≤ '9'

/-- The decimal digit character for a value below ten. -/
def digitChar : Nat → Char
  | 0 => '0'
  | 1 => '1'
  | 2 => '2'
  | 3 => '3'
  | 4 => '4'
  | 5 => '5'
  | 6 => '6'
  | 7 => '7'
  | 8 => '8'
  | _ => '9'

/-- Fueled decimal printer for naturals (fuel bounds the digit count). -/
def natCharsAux : Nat → Nat → Str
  | 0, _ => []
  | fuel + 1, n =>
    if n < 10 then [digitChar n]
    else natCharsAux fuel (n / 10) ++ [digitChar (n % 10)]

/-- Decimal representation of a natural number, as Python's `str` prints it. -/
def natChars (n : Nat) : Str := natCharsAux (n + 1) n

/-- Decimal representation of an integer, as Python's `str` prints it:
a minus sign for negatives, no plus sign, no leading zeros. -/
def intChars : Int → Str
  | Int.ofNat n => natChars n
  | Int.negSucc n => '-' :: natChars (n + 1)

/-- Worker for `pyReplace`, structurally recursive on a fuel argument that
bounds the number of scanning steps; any fuel at least the string length
gives the untruncated scan. -/
def pyReplaceAux (pat rep : Str) : Nat → Str → Str
  | _, [] => []
  | 0, s => s
  | f + 1, c :: rest =>
    if pat ≠ [] ∧ pat.isPrefixOf (c :: rest) then
      rep ++ pyReplaceAux pat rep f (rest.drop (pat.length - 1))
    else
      c :: pyReplaceAux pat rep f rest

/-- Embedding of Python's `str.replace` on character lists: scan left to
right, replace each non-overlapping occurrence of `pat` by `rep`, and resume
scanning after the replacement.  (All call sites in the source use non-empty
patterns; an empty pattern is treated as matching nowhere.) -/
def pyReplace (pat rep : Str) (s : Str) : Str := pyReplaceAux pat rep s.length s

/-- Whether `pat` occurs as a contiguous substring. -/
def hasSub (pat : Str) : Str → Bool
  | [] => pat.isEmpty
  | c :: rest => pat.isPrefixOf (c :: rest) || hasSub pat rest

/-- From the source (`format_term`): format one monomial `value * var`. -/
def format_term (value : Int) (var : Str) : Str :=
  if value = 0 then []
  else if value = 1 then var
  else if value = -1 then '-' :: var
  else intChars value ++ var

/-- The raw formatted equation string of `generate_liner_equation_system.py`:
`f"{format_term(a, 'x')} + {format_term(b, 'y')} = {c}"`. -/
def rawEquation (a b c : Int) : Str :=
  format_term a ['x'] ++ (' ' :: '+' :: ' ' :: format_term b ['y'])
    ++ (' ' :: '=' :: ' ' :: intChars c)

/-- The brace-wrapped equation string of `Hannah/generate_equation_system.py`:
the raw equation surrounded by a brace-space and a space-brace. -/
def bracedEquation (a b c : Int) : Str :=
  '\x7b' :: ' ' :: (rawEquation a b c ++ [' ', '\x7d'])

def patPlusDash : Str := ['+', ' ', '-']

def repPlusDash : Str := ['-', ' ']

def patDashDash : Str := ['-', ' ', '-']

def repDashDash : Str := ['+', ' ']

def patOneX : Str := [' ', '1', 'x']

def repOneX : Str := [' ', 'x']

def patOneY : Str := [' ', '1', 'y']

def repOneY : Str := [' ', 'y']

/-- The four-step textual fixup pipeline from the source, in its exact order:
first `"+ -" -> "- "`, then `"- -" -> "+ "`, then `" 1x" -> " x"`, and last
`" 1y" -> " y"`. -/
def fixup (e : Str) : Str :=
  pyReplace patOneY repOneY
    (pyReplace patOneX repOneX
      (pyReplace patDashDash repDashDash
        (pyReplace patPlusDash repPlusDash e)))

/-- One iteration's six draws of `generate_valid_equation_system`:
`x, y, a1, b1, a2, b2`, in the order the source draws them. -/
structure RawTuple where
  x : Int
  y : Int
  a1 : Int
  b1 : Int
  a2 : Int
  b2 : Int
deriving DecidableEq

/-- The tuple drawn at iteration `k` from the stream of random values. -/
def drawTuple (s : Nat → Int) (k : Nat) : RawTuple :=
  ⟨s (6 * k), s (6 * k + 1), s (6 * k + 2), s (6 * k + 3), s (6 * k + 4),
    s (6 * k + 5)⟩

/-- The rejection tests of the source loop: no zero coefficient, and both
constants bounded by 120 in absolute value. -/
def validTuple (t : RawTuple) : Prop :=
  ¬ (t.a1 = 0 ∨ t.b1 = 0 ∨ t.a2 = 0 ∨ t.b2 = 0) ∧
    |t.a1 * t.x + t.b1 * t.y| ≤ 120 ∧ |t.a2 * t.x + t.b2 * t.y| ≤ 120

instance (t : RawTuple) : Decidable (validTuple t) := by
  unfold validTuple; infer_instance

/-- The rejection loop: starting at iteration `k`, return the first drawn
tuple passing the tests, with explicit fuel standing for the unbounded
`while True`. -/
def acceptedTuple (s : Nat → Int) : Nat → Nat → Option RawTuple
  | 0, _ => none
  | fuel + 1, k =>
    if validTuple (drawTuple s k) then some (drawTuple s k)
    else acceptedTuple s fuel (k + 1)

/-- From the source (`generate_valid_equation_system`): loop until a valid
tuple is drawn, then return the two fixed-up equation strings and the
solution pair. -/
def generate_valid_equation_system (s : Nat → Int) (fuel : Nat) :
    Option (List Str × (Int × Int)) :=
  (acceptedTuple s fuel 0).map (fun t =>
    ([fixup (rawEquation t.a1 t.b1 (t.a1 * t.x + t.b1 * t.y)),
      fixup (rawEquation t.a2 t.b2 (t.a2 * t.x + t.b2 * t.y))], (t.x, t.y)))

/-- A deterministic stream that always draws the value one. -/
def oneStream : Nat → Int := fun _ => 1

/-- `reportlab.lib.units.mm`: one millimetre in points, exactly `72 / 25.4`. -/
def mm : ℚ := 360 / 127

/-- US letter page width in points (`reportlab.lib.pagesizes.letter`). -/
def letterW : ℚ := 612

/-- US letter page height in points. -/
def letterH : ℚ := 792

/-- An equation-system record: the formatted equation strings and the
integer solution pair. -/
abbrev EqSys := List Str × Int × Int

/-- One rendered equation-system block: the displayed global number, the
record, and the draw origin. -/
structure DrawBlock where
  eqNum : Nat
  sys : EqSys
  x : ℚ
  y : ℚ
deriving DecidableEq

/-- One answer-key entry, formatted as the source does. -/
def footerEntry (n : Nat) (sol : Int × Int) : Str :=
  natChars n ++ ('.' :: '(' :: intChars sol.1) ++ (',' :: intChars sol.2) ++ [')']

/-- The answer-key entry list built from a page's `solutions` accumulator:
one entry per solution, numbered by the page-local enumeration index plus
one. -/
def footerEntryList (sols : List (Int × Int)) : List Str :=
  sols.enum.map (fun p => footerEntry (p.1 + 1) p.2)

/-- The page footer text: the entries joined with two spaces. -/
def footerText (sols : List (Int × Int)) : Str :=
  List.intercalate [' ', ' '] (footerEntryList sols)

/-- Layout constants of `Hannah/generate_equation_system.py`. -/
def hannahBaseY : ℚ := letterH - 20 * mm

def hannahMargin : ℚ := 15 * mm

def hannahColumnGap : ℚ := 10 * mm

def hannahLineHeight : ℚ := 7 * mm

def hannahColumnWidth (numColumns : Nat) : ℚ :=
  (letterW - 2 * hannahMargin - ((numColumns : ℚ) - 1) * hannahColumnGap) / numColumns

def hannahXPos (numColumns col : Nat) : ℚ :=
  hannahMargin + col * (hannahColumnWidth numColumns + hannahColumnGap)

/-- `draw_equation` of the Hannah variant returns the next block's
y-coordinate `y - (len(equations) + 1) * line_height`. -/
def hannahNextY (y : ℚ) (numEqs : Nat) : ℚ := y - (numEqs + 1) * hannahLineHeight

/-- The inner column loop of the Hannah variant's `print_page`: `eqNum` is
the running document-global equation number, `k` the remaining slots of the
column.  The loop breaks when `eq_num - 1` is not an index of `pageEqs` —
note that `pageEqs` is the page's slice while `eq_num - 1` is the
document-global index, exactly as in the source. -/
def hannahColumn (pageEqs : List EqSys) (xpos : ℚ) : Nat → Nat → ℚ → List DrawBlock
  | _, 0, _ => []
  | eqNum, k + 1, y =>
    match pageEqs.get? (eqNum - 1) with
    | none => []
    | some e =>
      ⟨eqNum, e, xpos, y⟩ ::
        hannahColumn pageEqs xpos (eqNum + 1) k (hannahNextY y e.1.length)

/-- The `solutions` accumulator of the same loop. -/
def hannahColumnSols (pageEqs : List EqSys) : Nat → Nat → List (Int × Int)
  | _, 0 => []
  | eqNum, k + 1 =>
    match pageEqs.get? (eqNum - 1) with
    | none => []
    | some e => e.2 :: hannahColumnSols pageEqs (eqNum + 1) k

/-- All blocks drawn by the Hannah variant's `print_page` (column-major). -/
def hannahPage (pageEqs : List EqSys) (pageNum epc numColumns : Nat) : List DrawBlock :=
  ((List.range numColumns).map (fun col =>
    hannahColumn pageEqs (hannahXPos numColumns col)
      ((pageNum - 1) * (numColumns * epc) + col * epc + 1) epc hannahBaseY)).flatten

/-- The page's `solutions` list in the Hannah variant. -/
def hannahPageSols (pageEqs : List EqSys) (pageNum epc numColumns : Nat) : List (Int × Int) :=
  ((List.range numColumns).map (fun col =>
    hannahColumnSols pageEqs
      ((pageNum - 1) * (numColumns * epc) + col * epc + 1) epc)).flatten

/-- Layout constants of `generate_liner_equation_system.py` (fixed count). -/
def pyBaseY : ℚ := letterH - 25 * mm

def pyMargin : ℚ := 15 * mm

def pyColumnGap : ℚ := 10 * mm

def pyLineHeight : ℚ := 7 * mm

def pyFooterY : ℚ := 15 * mm

def pyColumnWidth (numColumns : Nat) : ℚ :=
  (letterW - 2 * pyMargin - ((numColumns : ℚ) - 1) * pyColumnGap) / numColumns

def pyXPos (numColumns col : Nat) : ℚ :=
  pyMargin + col * (pyColumnWidth numColumns + pyColumnGap)

/-- `draw_equation` of the fixed-count variant returns `y - 3.5 * line_height`. -/
def pyNextY (y : ℚ) : ℚ := y - 7 / 2 * pyLineHeight

/-- Inner column loop of the fixed-count `create_pdf`: `eqIndex` is the
page-local index `col * epc + idx`, `startIdx` the page's global offset.
The loop breaks before drawing when the page slice is exhausted, and after
drawing when the next y-coordinate would fall below `footer_y + 30 * mm`. -/
def pyColumn (pageEqs : List EqSys) (startIdx : Nat) (xpos : ℚ) :
    Nat → Nat → ℚ → List DrawBlock
  | _, 0, _ => []
  | eqIndex, k + 1, y =>
    match pageEqs.get? eqIndex with
    | none => []
    | some e =>
      ⟨startIdx + eqIndex + 1, e, xpos, y⟩ ::
        (if pyNextY y < pyFooterY + 30 * mm then []
         else pyColumn pageEqs startIdx xpos (eqIndex + 1) k (pyNextY y))

/-- The `solutions` accumulator of the same loop. -/
def pyColumnSols (pageEqs : List EqSys) : Nat → Nat → ℚ → List (Int × Int)
  | _, 0, _ => []
  | eqIndex, k + 1, y =>
    match pageEqs.get? eqIndex with
    | none => []
    | some e =>
      e.2 :: (if pyNextY y < pyFooterY + 30 * mm then []
              else pyColumnSols pageEqs (eqIndex + 1) k (pyNextY y))

/-- One page of the fixed-count `create_pdf`: the page takes the slice
starting at `page * numColumns * epc` and fills columns left to right. -/
def pyPage (allEqs : List EqSys) (epc numColumns page : Nat) : List DrawBlock :=
  ((List.range numColumns).map (fun col =>
    pyColumn ((allEqs.drop (page * numColumns * epc)).take (numColumns * epc))
      (page * numColumns * epc) (pyXPos numColumns col) (col * epc) epc pyBaseY)).flatten

/-- The page's `solutions` list in the fixed-count variant. -/
def pyPageSols (allEqs : List EqSys) (epc numColumns page : Nat) : List (Int × Int) :=
  ((List.range numColumns).map (fun col =>
    pyColumnSols ((allEqs.drop (page * numColumns * epc)).take (numColumns * epc))
      (col * epc) epc pyBaseY)).flatten

/-- The layout record of the dynamic-fit variant. -/
structure DynLayout where
  margin : ℚ
  columnGap : ℚ
  baseY : ℚ
  lineHeight : ℚ
  footerY : ℚ
  numColumns : Nat
  columnWidth : ℚ
  equationsPerColumn : Nat
deriving DecidableEq

/-- From the source (`calculate_layout` of the dynamic-fit variant): the
layout constants, the column width, and the per-column capacity
`int((base_y - footer_y) // (2 * line_height))`. -/
def calculate_layout (numColumns : Nat) : DynLayout :=
  { margin := 15 * mm
    columnGap := 10 * mm
    baseY := letterH - 25 * mm
    lineHeight := 7 * mm
    footerY := 15 * mm
    numColumns := numColumns
    columnWidth :=
      (letterW - 2 * (15 * mm) - ((numColumns : ℚ) - 1) * (10 * mm)) / numColumns
    equationsPerColumn := (⌊((letterH - 25 * mm) - 15 * mm) / (2 * (7 * mm))⌋).toNat }

/-- The available vertical space of a dynamic-fit column, as the source
computes it: `y - footer_y - 10 * mm`. -/
def dynAvail (y0 footerY : ℚ) : ℚ := y0 - footerY - 10 * mm

/-- The per-item extra spacing of a dynamic-fit column:
`remaining_space / spacing_count` when the count is positive, else zero. -/
def dynSpacing (y0 footerY lh : ℚ) (actualCount : Nat) : ℚ :=
  if 0 < actualCount then
    (dynAvail y0 footerY - actualCount * (2 * lh)) / actualCount
  else 0

/-- The dynamic-fit drawing loop for one column: draw the block, advance by
the block height `2 * lh` plus the spacing, and break once the next
y-coordinate falls below `footerY + 15 * mm`. -/
def dynColLoop (xpos lh spacing footerY : ℚ) : Nat → List EqSys → ℚ → List DrawBlock
  | _, [], _ => []
  | eqNum, e :: rest, y =>
    ⟨eqNum, e, xpos, y⟩ ::
      (if (y - 2 * lh) - spacing < footerY + 15 * mm then []
       else dynColLoop xpos lh spacing footerY (eqNum + 1) rest ((y - 2 * lh) - spacing))

/-- The `solutions` accumulator of the same loop. -/
def dynColLoopSols (lh spacing footerY : ℚ) : List EqSys → ℚ → List (Int × Int)
  | [], _ => []
  | e :: rest, y =>
    e.2 :: (if (y - 2 * lh) - spacing < footerY + 15 * mm then []
            else dynColLoopSols lh spacing footerY rest ((y - 2 * lh) - spacing))

/-- One dynamic-fit column: an empty column is skipped outright, otherwise
the spacing is computed from the column's item count and the loop runs from
the column top `y0`. -/
def dynColumnWith (y0 footerY lh xpos : ℚ) (startNum : Nat) (colData : List EqSys) :
    List DrawBlock :=
  if colData.length = 0 then []
  else dynColLoop xpos lh (dynSpacing y0 footerY lh colData.length) footerY startNum colData y0

/-- The `solutions` contribution of one dynamic-fit column. -/
def dynColumnSolsWith (y0 footerY lh : ℚ) (colData : List EqSys) : List (Int × Int) :=
  if colData.length = 0 then []
  else dynColLoopSols lh (dynSpacing y0 footerY lh colData.length) footerY colData y0

def dynXPos (numColumns col : Nat) : ℚ :=
  (calculate_layout numColumns).margin +
    col * ((calculate_layout numColumns).columnWidth + (calculate_layout numColumns).columnGap)

/-- One page of the dynamic-fit `create_pdf`: the page takes the slice
starting at `page * numColumns * epc` (with `epc` the caller-supplied
`equations_per_column`), and each column takes its `epc`-sized sub-slice. -/
def dynPage (allEqs : List EqSys) (epc numColumns page : Nat) : List DrawBlock :=
  ((List.range numColumns).map (fun col =>
    dynColumnWith (calculate_layout numColumns).baseY (calculate_layout numColumns).footerY
      (calculate_layout numColumns).lineHeight (dynXPos numColumns col)
      (page * numColumns * epc + col * epc + 1)
      ((((allEqs.drop (page * numColumns * epc)).take (numColumns * epc)).drop (col * epc)).take epc))).flatten

/-- The page's `solutions` list in the dynamic-fit variant. -/
def dynPageSols (allEqs : List EqSys) (epc numColumns page : Nat) : List (Int × Int) :=
  ((List.range numColumns).map (fun col =>
    dynColumnSolsWith (calculate_layout numColumns).baseY (calculate_layout numColumns).footerY
      (calculate_layout numColumns).lineHeight
      ((((allEqs.drop (page * numColumns * epc)).take (numColumns * epc)).drop (col * epc)).take epc))).flatten

/-- The dynamic-fit page footer text. -/
def dynPageFooter (allEqs : List EqSys) (epc numColumns page : Nat) : Str :=
  footerText (dynPageSols allEqs epc numColumns page)

/-- The Hannah variant's page footer text. -/
def hannahPageFooter (pageEqs : List EqSys) (pageNum epc numColumns : Nat) : Str :=
  footerText (hannahPageSols pageEqs pageNum epc numColumns)

/-- The fixed-count variant's page footer text. -/
def pyPageFooter (allEqs : List EqSys) (epc numColumns page : Nat) : Str :=
  footerText (pyPageSols allEqs epc numColumns page)

/-- Modelled from the spec: the answer-key entry list the claim describes,
numbered by the display index (the document-global equation number carried
by each placed instruction) instead of by the page-local position. -/
def specDisplayIndexEntryList (blocks : List DrawBlock) : List Str :=
  blocks.map (fun b => footerEntry b.eqNum b.sys.2)

/-- A schematic equation-system record used to exercise the layout code. -/
def dummySys (i : Nat) : EqSys := ([], ((i : Int), 0))

/-- A list of `n` schematic records with distinct solutions. -/
def dummySystems (n : Nat) : List EqSys := (List.range n).map dummySys

/-- The block list a column produces when its first items are placed at a
constant vertical advance `adv` starting from `y`. -/
def expectedBlocks (xpos adv : ℚ) : Nat → ℚ → List EqSys → List DrawBlock
  | _, _, [] => []
  | eqNum, y, e :: rest =>
    ⟨eqNum, e, xpos, y⟩ :: expectedBlocks xpos adv (eqNum + 1) (y - adv) rest

/-- Shape of an unsigned monomial body: decimal digits followed by the
variable letter, or the variable alone for a unit coefficient. -/
def termBody (v : Char) : Str → Bool
  | [] => false
  | [c] => c == v
  | c :: rest => isDigitCh c && termBody v rest

/-- The body does not begin with the character `1` followed directly by the
variable (no coefficient in `[-20, 20]` formats that way). -/
def bodyNotOneVar (v : Char) (t : Str) : Bool :=
  if t.head? = some '1' ∧ t.tail.head? = some v then false else true

/-- Shape of a formatted monomial: an optional leading minus sign followed
by a well-formed body. -/
def termGood (v : Char) (t : Str) : Bool :=
  if t.head? = some '-' then termBody v t.tail && bodyNotOneVar v t.tail
  else termBody v t && bodyNotOneVar v t

/-- A non-empty run of decimal digits. -/
def digitsNE (t : Str) : Bool :=
  !t.isEmpty && t.all isDigitCh

/-- Shape of a printed integer constant: an optional leading minus sign
followed by a non-empty run of digits. -/
def constGood (t : Str) : Bool :=
  if t.head? = some '-' then digitsNE t.tail else digitsNE t

/-- The generic shape of an equation string around its middle sign: the
x-monomial, a space-sign-space junction, a y-part, a space-equals-space
junction, the constant, and a trailing suffix (empty, or space-brace for
the brace-wrapped variant). -/
def eqnCoreT (t1 : Str) (m : Char) (u : Str) (cs : Str) (tail : Str) : Str :=
  t1 ++ (' ' :: m :: ' ' :: (u ++ (' ' :: '=' :: ' ' :: (cs ++ tail))))

/-- The admissible equation-string suffixes. -/
def tailOK (tail : Str) : Prop := tail = [] ∨ tail = [' ', '\x7d']

theorem isPrefixOf_cons_cons (a b : Char) (as bs : Str) :
    (a :: as).isPrefixOf (b :: bs) = ((a == b) && as.isPrefixOf bs) := rfl

theorem pyReplaceAux_congr (pat rep : Str) :
    ∀ (f g : Nat) (s : Str), s.length ≤ f → s.length ≤ g →
      pyReplaceAux pat rep f s = pyReplaceAux pat rep g s := by
  intro f
  induction f with
  | zero =>
    intro g s hf _
    have hs : s = [] := List.length_eq_zero.mp (Nat.le_zero.mp hf)
    subst hs
    cases g <;> rfl
  | succ f ih =>
    intro g s hf hg
    cases s with
    | nil => cases g <;> rfl
    | cons c rest =>
      cases g with
      | zero => simp at hg
      | succ g' =>
        simp only [pyReplaceAux]
        have hf' : rest.length ≤ f := by simp at hf; omega
        have hg' : rest.length ≤ g' := by simp at hg; omega
        by_cases h : pat ≠ [] ∧ pat.isPrefixOf (c :: rest) = true
        · rw [if_pos h, if_pos h]
          have hd : (rest.drop (pat.length - 1)).length ≤ rest.length := by
            simp [List.length_drop]
          rw [ih g' (rest.drop (pat.length - 1)) (le_trans hd hf') (le_trans hd hg')]
        · rw [if_neg h, if_neg h, ih g' rest hf' hg']

theorem pyReplace_nil (pat rep : Str) : pyReplace pat rep [] = [] := rfl

theorem pyReplace_cons_pos (pat rep : Str) (c : Char) (rest : Str)
    (hne : pat ≠ []) (h : pat.isPrefixOf (c :: rest) = true) :
    pyReplace pat rep (c :: rest) =
      rep ++ pyReplace pat rep (rest.drop (pat.length - 1)) := by
  show pyReplaceAux pat rep (c :: rest).length (c :: rest) = _
  rw [List.length_cons]
  simp only [pyReplaceAux]
  rw [if_pos ⟨hne, h⟩]
  congr 1
  exact pyReplaceAux_congr pat rep rest.length (rest.drop (pat.length - 1)).length
    (rest.drop (pat.length - 1)) (by simp [List.length_drop]) (le_refl _)

theorem pyReplace_cons_neg (pat rep : Str) (c : Char) (rest : Str)
    (h : pat.isPrefixOf (c :: rest) = false) :
    pyReplace pat rep (c :: rest) = c :: pyReplace pat rep rest := by
  show pyReplaceAux pat rep (c :: rest).length (c :: rest) = _
  rw [List.length_cons]
  simp only [pyReplaceAux]
  have hc : ¬ (pat ≠ [] ∧ pat.isPrefixOf (c :: rest) = true) := by
    intro hc
    rw [h] at hc
    simp at hc
  rw [if_neg hc]
  rfl

theorem hasSub_nil (pat : Str) : hasSub pat [] = pat.isEmpty := rfl

theorem hasSub_cons (pat : Str) (c : Char) (rest : Str) :
    hasSub pat (c :: rest) = (pat.isPrefixOf (c :: rest) || hasSub pat rest) := rfl

theorem hasSub_cons_false (pat : Str) (c : Char) (rest : Str)
    (h : pat.isPrefixOf (c :: rest) = false) :
    hasSub pat (c :: rest) = hasSub pat rest := by
  rw [hasSub_cons, h, Bool.false_or]

theorem pyReplace_of_hasSub_false (pat rep s : Str) (h : hasSub pat s = false) :
    pyReplace pat rep s = s := by
  induction s with
  | nil => rfl
  | cons c rest ih =>
    rw [hasSub_cons, Bool.or_eq_false_iff] at h
    rw [pyReplace_cons_neg pat rep c rest h.1, ih h.2]

theorem hasSub_append_left (p0 : Char) (p' : Str) (xs ys : Str) (h : p0 ∉ xs) :
    hasSub (p0 :: p') (xs ++ ys) = hasSub (p0 :: p') ys := by
  induction xs with
  | nil => rfl
  | cons c rest ih =>
    rw [List.mem_cons, not_or] at h
    have hpre : (p0 :: p').isPrefixOf (c :: (rest ++ ys)) = false := by
      rw [isPrefixOf_cons_cons]
      have hb : (p0 == c) = false := beq_eq_false_iff_ne.mpr h.1
      rw [hb, Bool.false_and]
    rw [List.cons_append, hasSub_cons_false _ _ _ hpre, ih h.2]

theorem hasSub_not_mem (p0 : Char) (p' s : Str) (h : p0 ∉ s) :
    hasSub (p0 :: p') s = false := by
  have h2 := hasSub_append_left p0 p' s [] h
  rw [List.append_nil] at h2
  rw [h2]
  rfl

theorem pyReplace_append_left (p0 : Char) (p' rep : Str) (xs ys : Str) (h : p0 ∉ xs) :
    pyReplace (p0 :: p') rep (xs ++ ys) = xs ++ pyReplace (p0 :: p') rep ys := by
  induction xs with
  | nil => rfl
  | cons c rest ih =>
    rw [List.mem_cons, not_or] at h
    have hpre : (p0 :: p').isPrefixOf (c :: (rest ++ ys)) = false := by
      rw [isPrefixOf_cons_cons]
      have hb : (p0 == c) = false := beq_eq_false_iff_ne.mpr h.1
      rw [hb, Bool.false_and]
    rw [List.cons_append, pyReplace_cons_neg _ _ _ _ hpre, ih h.2, List.cons_append]

theorem hasSub_append_mid (p0 p2 : Char) (xs ys : Str)
    (hxs : ' ' ∉ xs)
    (hlast : ys.head? = some ' ' → xs.getLast? ≠ some p0) :
    hasSub [p0, ' ', p2] (xs ++ ys) = hasSub [p0, ' ', p2] ys := by
  induction xs with
  | nil => rfl
  | cons c rest ih =>
    rw [List.mem_cons, not_or] at hxs
    have hpre : [p0, ' ', p2].isPrefixOf (c :: (rest ++ ys)) = false := by
      rw [isPrefixOf_cons_cons]
      cases rest with
      | cons r rs =>
        have hrne : (' ' == r) = false := by
          apply beq_eq_false_iff_ne.mpr
          intro e
          exact hxs.2 (e ▸ List.mem_cons_self r rs)
        rw [List.cons_append, isPrefixOf_cons_cons, hrne, Bool.false_and, Bool.and_false]
      | nil =>
        rw [List.nil_append]
        cases ys with
        | nil => simp [List.isPrefixOf]
        | cons y ys' =>
          by_cases hsp : y = ' '
          · have hc : c ≠ p0 := fun e => hlast (by simp [hsp]) (by simp [e])
            have hb : (p0 == c) = false := beq_eq_false_iff_ne.mpr (fun e => hc e.symm)
            rw [hb, Bool.false_and]
          · have hb : (' ' == y) = false := beq_eq_false_iff_ne.mpr (fun e => hsp e.symm)
            rw [isPrefixOf_cons_cons, hb, Bool.false_and, Bool.and_false]
    rw [List.cons_append, hasSub_cons_false _ _ _ hpre]
    apply ih hxs.2
    intro hh
    cases hr2 : rest with
    | nil => simp
    | cons r rs =>
      have h3 := hlast hh
      rw [hr2] at h3
      rwa [List.getLast?_cons_cons] at h3

theorem termBody_mem (v : Char) :
    ∀ t : Str, termBody v t = true → ∀ c ∈ t, isDigitCh c = true ∨ c = v := by
  intro t
  induction t with
  | nil => intro h; simp [termBody] at h
  | cons c rest ih =>
    intro h d hd
    cases rest with
    | nil =>
      rw [List.mem_singleton] at hd
      subst hd
      right
      have hb : (d == v) = true := h
      exact beq_iff_eq.mp hb
    | cons c2 r2 =>
      have h2 : (isDigitCh c && termBody v (c2 :: r2)) = true := h
      rw [Bool.and_eq_true] at h2
      rcases List.mem_cons.mp hd with rfl | hd2
      · left; exact h2.1
      · exact ih h2.2 d hd2

theorem termBody_getLast (v : Char) :
    ∀ t : Str, termBody v t = true → t.getLast? = some v := by
  intro t
  induction t with
  | nil => intro h; simp [termBody] at h
  | cons c rest ih =>
    intro h
    cases rest with
    | nil =>
      have hb : (c == v) = true := h
      rw [beq_iff_eq.mp hb]
      rfl
    | cons c2 r2 =>
      have h2 : (isDigitCh c && termBody v (c2 :: r2)) = true := h
      rw [Bool.and_eq_true] at h2
      rw [List.getLast?_cons_cons]
      exact ih h2.2

theorem termBody_ne_nil (v : Char) (t : Str) (h : termBody v t = true) : t ≠ [] := by
  intro e
  subst e
  simp [termBody] at h

theorem isDigitCh_ne (c d : Char) (h : isDigitCh c = true) (hd : isDigitCh d = false) :
    c ≠ d := by
  intro e
  subst e
  rw [h] at hd
  simp at hd

theorem termBody_not_mem (v c : Char) (t : Str) (hc : isDigitCh c = false)
    (hv : v ≠ c) (h : termBody v t = true) : c ∉ t := by
  intro hm
  rcases termBody_mem v t h c hm with hdig | hev
  · rw [hc] at hdig; simp at hdig
  · exact hv hev.symm

theorem termBody_shape (v : Char) (t : Str) (h : termBody v t = true) :
    ∃ c rest, t = c :: rest ∧ (isDigitCh c = true ∨ c = v) := by
  cases t with
  | nil => simp [termBody] at h
  | cons c rest =>
    exact ⟨c, rest, rfl, termBody_mem v _ h c (List.mem_cons_self c rest)⟩

theorem termBody_single (v : Char) : termBody v [v] = true := by
  show (v == v) = true
  simp

theorem bodyNotOneVar_single (v c : Char) : bodyNotOneVar v [c] = true := by
  unfold bodyNotOneVar
  rw [if_neg]
  intro he
  simp at he

theorem bodyNotOneVar_spec (v c2 : Char) (r : Str)
    (h : bodyNotOneVar v ('1' :: c2 :: r) = true) : c2 ≠ v := by
  intro e
  unfold bodyNotOneVar at h
  rw [if_pos ⟨rfl, by simp [e]⟩] at h
  simp at h

theorem digitsNE_mem (t : Str) (h : digitsNE t = true) : ∀ c ∈ t, isDigitCh c = true := by
  unfold digitsNE at h
  rw [Bool.and_eq_true] at h
  exact List.all_eq_true.mp h.2

theorem digitsNE_ne_nil (t : Str) (h : digitsNE t = true) : t ≠ [] := by
  unfold digitsNE at h
  rw [Bool.and_eq_true] at h
  intro e
  subst e
  simp at h

theorem constGood_cases (t : Str) (h : constGood t = true) :
    (∃ r, t = '-' :: r ∧ digitsNE r = true) ∨
      (digitsNE t = true ∧ t.head? ≠ some '-') := by
  unfold constGood at h
  by_cases hh : t.head? = some '-'
  · rw [if_pos hh] at h
    left
    cases t with
    | nil => simp at hh
    | cons c rest =>
      have hc : c = '-' := by simpa using hh
      subst hc
      exact ⟨rest, rfl, h⟩
  · rw [if_neg hh] at h
    right
    exact ⟨h, hh⟩

theorem termGood_cases (v : Char) (t : Str) (h : termGood v t = true) :
    (∃ r, t = '-' :: r ∧ termBody v r = true ∧ bodyNotOneVar v r = true) ∨
      (termBody v t = true ∧ bodyNotOneVar v t = true ∧ t.head? ≠ some '-') := by
  unfold termGood at h
  by_cases hh : t.head? = some '-'
  · rw [if_pos hh] at h
    rw [Bool.and_eq_true] at h
    left
    cases t with
    | nil => simp at hh
    | cons c rest =>
      have hc : c = '-' := by simpa using hh
      subst hc
      exact ⟨rest, rfl, h.1, h.2⟩
  · rw [if_neg hh] at h
    rw [Bool.and_eq_true] at h
    right
    exact ⟨h.1, h.2, hh⟩

theorem digitChar_digit (n : Nat) : isDigitCh (digitChar n) = true := by
  unfold digitChar
  rcases n with _ | _ | _ | _ | _ | _ | _ | _ | _ | n <;> rfl

theorem natCharsAux_digits : ∀ (f n : Nat), (natCharsAux f n).all isDigitCh = true := by
  intro f
  induction f with
  | zero => intro n; rfl
  | succ f ih =>
    intro n
    unfold natCharsAux
    by_cases h : n < 10
    · rw [if_pos h]
      simp [digitChar_digit]
    · rw [if_neg h]
      rw [List.all_append, ih (n / 10)]
      simp [digitChar_digit]

theorem natCharsAux_ne_nil (f n : Nat) : natCharsAux (f + 1) n ≠ [] := by
  unfold natCharsAux
  by_cases h : n < 10
  · rw [if_pos h]; simp
  · rw [if_neg h]; simp

theorem natChars_digits (n : Nat) : (natChars n).all isDigitCh = true :=
  natCharsAux_digits (n + 1) n

theorem natChars_ne_nil (n : Nat) : natChars n ≠ [] := natCharsAux_ne_nil n n

theorem natChars_singleton_one (n : Nat) (h : natChars n = ['1']) : n = 1 := by
  unfold natChars natCharsAux at h
  by_cases hn : n < 10
  · rw [if_pos hn] at h
    simp at h
    interval_cases n <;> revert h <;> decide
  · rw [if_neg hn] at h
    have h10 : 10 ≤ n := Nat.not_lt.mp hn
    have hne : natCharsAux n (n / 10) ≠ [] := by
      obtain ⟨m, rfl⟩ : ∃ m, n = m + 1 := ⟨n - 1, by omega⟩
      exact natCharsAux_ne_nil m ((m + 1) / 10)
    have hlen := congrArg List.length h
    simp at hlen
    exact absurd hlen hne

theorem digitsNE_natChars (n : Nat) : digitsNE (natChars n) = true := by
  unfold digitsNE
  rw [natChars_digits n, Bool.and_true]
  cases he : natChars n with
  | nil => exact absurd he (natChars_ne_nil n)
  | cons c r => rfl

theorem natChars_head_digit (n : Nat) :
    ∃ c r, natChars n = c :: r ∧ isDigitCh c = true := by
  cases he : natChars n with
  | nil => exact absurd he (natChars_ne_nil n)
  | cons c r =>
    refine ⟨c, r, rfl, ?_⟩
    have hall := natChars_digits n
    rw [he, List.all_cons, Bool.and_eq_true] at hall
    exact hall.1

theorem constGood_intChars (c : Int) : constGood (intChars c) = true := by
  cases c with
  | ofNat n =>
    show constGood (natChars n) = true
    obtain ⟨d, r, he, hd⟩ := natChars_head_digit n
    unfold constGood
    rw [if_neg]
    · exact digitsNE_natChars n
    · rw [he]
      simp
      exact isDigitCh_ne d '-' hd (by decide)
  | negSucc n =>
    show constGood ('-' :: natChars (n + 1)) = true
    unfold constGood
    rw [if_pos (show ('-' :: natChars (n + 1)).head? = some '-' from rfl)]
    exact digitsNE_natChars (n + 1)

theorem termBody_digits_append (v : Char) :
    ∀ ds : Str, ds.all isDigitCh = true → termBody v (ds ++ [v]) = true := by
  intro ds
  induction ds with
  | nil =>
    intro _
    show (v == v) = true
    simp
  | cons d r ih =>
    intro h
    rw [List.all_cons, Bool.and_eq_true] at h
    cases r with
    | nil =>
      show (isDigitCh d && termBody v [v]) = true
      rw [h.1, Bool.true_and]
      exact termBody_single v
    | cons d2 r2 =>
      show (isDigitCh d && termBody v ((d2 :: r2) ++ [v])) = true
      rw [h.1, Bool.true_and]
      exact ih h.2

theorem bodyNotOneVar_digits_append (v : Char) (hv : isDigitCh v = false) (ds : Str)
    (hds : ds.all isDigitCh = true) (hne : ds ≠ ['1']) :
    bodyNotOneVar v (ds ++ [v]) = true := by
  unfold bodyNotOneVar
  rw [if_neg]
  intro he
  cases ds with
  | nil => simp at he
  | cons d r =>
    rw [List.all_cons, Bool.and_eq_true] at hds
    cases r with
    | nil =>
      have hd1 : d = '1' := by simpa using he.1
      exact hne (by rw [hd1])
    | cons d2 r2 =>
      have hd2 : d2 = v := by simpa using he.2
      subst hd2
      rw [List.all_cons, Bool.and_eq_true] at hds
      rw [hds.2.1] at hv
      simp at hv

theorem termGood_format_term (v : Char) (hv : isDigitCh v = false) (hvd : v ≠ '-')
    (a : Int) (ha : a ≠ 0) : termGood v (format_term a [v]) = true := by
  unfold format_term
  rw [if_neg ha]
  by_cases h1 : a = 1
  · rw [if_pos h1]
    unfold termGood
    rw [if_neg (by simp; exact fun e => hvd e)]
    rw [Bool.and_eq_true]
    exact ⟨termBody_single v, bodyNotOneVar_single v v⟩
  · rw [if_neg h1]
    by_cases h2 : a = -1
    · rw [if_pos h2]
      unfold termGood
      rw [if_pos (show ('-' :: [v]).head? = some '-' from rfl)]
      rw [Bool.and_eq_true]
      exact ⟨termBody_single v, bodyNotOneVar_single v v⟩
    · rw [if_neg h2]
      cases a with
      | ofNat n =>
        show termGood v (natChars n ++ [v]) = true
        obtain ⟨d, r, he, hd⟩ := natChars_head_digit n
        have hne1 : natChars n ≠ ['1'] := by
          intro e
          apply h1
          rw [natChars_singleton_one n e]
          rfl
        unfold termGood
        rw [if_neg]
        · rw [Bool.and_eq_true]
          exact ⟨termBody_digits_append v (natChars n) (natChars_digits n),
                 bodyNotOneVar_digits_append v hv (natChars n) (natChars_digits n) hne1⟩
        · rw [he]
          simp
          exact isDigitCh_ne d '-' hd (by decide)
      | negSucc n =>
        show termGood v (('-' :: natChars (n + 1)) ++ [v]) = true
        have hne1 : natChars (n + 1) ≠ ['1'] := by
          intro e
          have hn1 := natChars_singleton_one (n + 1) e
          apply h2
          rw [show n = 0 from by omega]
          rfl
        unfold termGood
        rw [List.cons_append,
          if_pos (show ('-' :: (natChars (n + 1) ++ [v])).head? = some '-' from rfl)]
        rw [Bool.and_eq_true]
        show termBody v (natChars (n + 1) ++ [v]) = true ∧
          bodyNotOneVar v (natChars (n + 1) ++ [v]) = true
        exact ⟨termBody_digits_append v (natChars (n + 1)) (natChars_digits (n + 1)),
               bodyNotOneVar_digits_append v hv (natChars (n + 1)) (natChars_digits (n + 1)) hne1⟩

theorem termBody_getLast_ne (v p : Char) (hvp : v ≠ p) (t : Str)
    (h : termBody v t = true) : t.getLast? ≠ some p := by
  rw [termBody_getLast v t h]
  intro e
  injection e with e2
  exact hvp e2

theorem digitsNE_getLast_ne (p : Char) (hp : isDigitCh p = false) (t : Str)
    (h : digitsNE t = true) : t.getLast? ≠ some p := by
  intro e
  have hx : p ∈ t.getLast? := e
  obtain ⟨hne, hpe⟩ := List.mem_getLast?_eq_getLast hx
  have hm : p ∈ t := hpe ▸ List.getLast_mem hne
  have hdig := digitsNE_mem t h p hm
  rw [hdig] at hp
  simp at hp

theorem termGood_no_space (v : Char) (hv : v ≠ ' ') (t : Str) (h : termGood v t = true) :
    ' ' ∉ t := by
  rcases termGood_cases v t h with ⟨r, rfl, hb, _⟩ | ⟨hb, _, _⟩
  · intro hm
    rcases List.mem_cons.mp hm with e | hm2
    · exact absurd e (by decide)
    · exact termBody_not_mem v ' ' r (by decide) hv hb hm2
  · exact termBody_not_mem v ' ' t (by decide) hv hb

theorem termGood_not_mem (v c : Char) (hc : isDigitCh c = false) (hv : v ≠ c)
    (hcd : c ≠ '-') (t : Str) (h : termGood v t = true) : c ∉ t := by
  rcases termGood_cases v t h with ⟨r, rfl, hb, _⟩ | ⟨hb, _, _⟩
  · intro hm
    rcases List.mem_cons.mp hm with e | hm2
    · exact hcd e
    · exact termBody_not_mem v c r hc hv hb hm2
  · exact termBody_not_mem v c t hc hv hb

theorem termGood_getLast_ne (v p : Char) (hvp : v ≠ p) (t : Str)
    (h : termGood v t = true) : t.getLast? ≠ some p := by
  rcases termGood_cases v t h with ⟨r, rfl, hb, _⟩ | ⟨hb, _, _⟩
  · cases r with
    | nil => exact absurd rfl (termBody_ne_nil v [] hb)
    | cons a as =>
      rw [List.getLast?_cons_cons]
      exact termBody_getLast_ne v p hvp _ hb
  · exact termBody_getLast_ne v p hvp t hb

theorem termGood_head (v : Char) (t : Str) (h : termGood v t = true) :
    ∃ c r, t = c :: r ∧ (c = '-' ∨ isDigitCh c = true ∨ c = v) := by
  rcases termGood_cases v t h with ⟨r, rfl, _, _⟩ | ⟨hb, _, _⟩
  · exact ⟨'-', r, rfl, Or.inl rfl⟩
  · obtain ⟨c, rest, rfl, hc⟩ := termBody_shape v t hb
    exact ⟨c, rest, rfl, Or.inr hc⟩

theorem constGood_no_space (t : Str) (h : constGood t = true) : ' ' ∉ t := by
  rcases constGood_cases t h with ⟨r, rfl, hd⟩ | ⟨hd, _⟩
  · intro hm
    rcases List.mem_cons.mp hm with e | hm2
    · exact absurd e (by decide)
    · exact absurd (digitsNE_mem r hd ' ' hm2) (by decide)
  · intro hm
    exact absurd (digitsNE_mem t hd ' ' hm) (by decide)

theorem constGood_not_mem (c : Char) (hc : isDigitCh c = false) (hcd : c ≠ '-')
    (t : Str) (h : constGood t = true) : c ∉ t := by
  rcases constGood_cases t h with ⟨r, rfl, hd⟩ | ⟨hd, _⟩
  · intro hm
    rcases List.mem_cons.mp hm with e | hm2
    · exact hcd e
    · have := digitsNE_mem r hd c hm2
      rw [this] at hc
      simp at hc
  · intro hm
    have := digitsNE_mem t hd c hm
    rw [this] at hc
    simp at hc

theorem constGood_getLast_ne (p : Char) (hp : isDigitCh p = false) (t : Str)
    (h : constGood t = true) : t.getLast? ≠ some p := by
  rcases constGood_cases t h with ⟨r, rfl, hd⟩ | ⟨hd, _⟩
  · cases r with
    | nil => exact absurd rfl (digitsNE_ne_nil [] hd)
    | cons a as =>
      rw [List.getLast?_cons_cons]
      exact digitsNE_getLast_ne p hp _ hd
  · exact digitsNE_getLast_ne p hp t hd

theorem constGood_head (t : Str) (h : constGood t = true) :
    ∃ c r, t = c :: r ∧ (c = '-' ∨ isDigitCh c = true) := by
  rcases constGood_cases t h with ⟨r, rfl, _⟩ | ⟨hd, _⟩
  · exact ⟨'-', r, rfl, Or.inl rfl⟩
  · cases t with
    | nil => exact absurd rfl (digitsNE_ne_nil [] hd)
    | cons c rest =>
      exact ⟨c, rest, rfl, Or.inr (digitsNE_mem _ hd c (List.mem_cons_self c rest))⟩

theorem isPrefixOf_head_ne (p0 c : Char) (p' s : Str) (h : p0 ≠ c) :
    (p0 :: p').isPrefixOf (c :: s) = false := by
  rw [isPrefixOf_cons_cons, beq_eq_false_iff_ne.mpr h, Bool.false_and]

theorem termBody_head_ne_dash (v : Char) (hvd : v ≠ '-') (t : Str)
    (h : termBody v t = true) : t.head? ≠ some '-' := by
  obtain ⟨c, rest, rfl, hc⟩ := termBody_shape v t h
  simp
  rcases hc with hd | rfl
  · exact isDigitCh_ne c '-' hd (by decide)
  · exact hvd

theorem termGood_unsign (v : Char) (hvd : v ≠ '-') (r : Str) (hb : termBody v r = true)
    (hb2 : bodyNotOneVar v r = true) : termGood v r = true := by
  unfold termGood
  rw [if_neg (termBody_head_ne_dash v hvd r hb)]
  rw [hb, hb2]
  rfl

theorem digitsNE_shape (t : Str) (h : digitsNE t = true) :
    ∃ c r, t = c :: r ∧ isDigitCh c = true ∧ (∀ d ∈ r, isDigitCh d = true) := by
  cases t with
  | nil => exact absurd rfl (digitsNE_ne_nil [] h)
  | cons c r =>
    refine ⟨c, r, rfl, digitsNE_mem _ h c (List.mem_cons_self c r), ?_⟩
    intro d hd
    exact digitsNE_mem _ h d (List.mem_cons_of_mem c hd)

theorem termBody_second (v c1 c2 : Char) (r : Str)
    (h : termBody v (c1 :: c2 :: r) = true) : isDigitCh c2 = true ∨ c2 = v :=
  termBody_mem v _ h c2 (by simp)

theorem isPrefixOf_sign_dash (q c : Char) (ur zs : Str) (hcq : c ≠ '-') :
    ([q, ' ', '-']).isPrefixOf (q :: ' ' :: ((c :: ur) ++ zs)) = false := by
  rw [List.cons_append, isPrefixOf_cons_cons, isPrefixOf_cons_cons, isPrefixOf_cons_cons]
  rw [beq_eq_false_iff_ne.mpr (fun e => hcq e.symm)]
  simp

theorem isPrefixOf_one_w_term (w v : Char) (hwdig : isDigitCh w = false)
    (hvdig : isDigitCh v = false) (u zs : Str)
    (hu : termGood v u = true) :
    (['1', w]).isPrefixOf (u ++ zs) = false := by
  rcases termGood_cases v u hu with ⟨r, rfl, hb, hb2⟩ | ⟨hb, hb2, _⟩
  · rw [List.cons_append]
    exact isPrefixOf_head_ne '1' '-' _ _ (by decide)
  · obtain ⟨c, ur, rfl, hc⟩ := termBody_shape v u hb
    rw [List.cons_append]
    by_cases h1 : c = '1'
    · subst h1
      cases ur with
      | nil =>
        have hf : ('1' == v) = true := hb
        have hv1 : v = '1' := (beq_iff_eq.mp hf).symm
        rw [hv1] at hvdig
        simp [isDigitCh] at hvdig
      | cons c2 ur2 =>
        have hc2 : isDigitCh c2 = true ∨ c2 = v := termBody_second v '1' c2 ur2 hb
        have hbv : c2 ≠ v := bodyNotOneVar_spec v c2 ur2 hb2
        have hwc2 : (w == c2) = false := by
          rcases hc2 with hd | e
          · exact beq_eq_false_iff_ne.mpr (fun e2 => (isDigitCh_ne c2 w hd hwdig) e2.symm)
          · exact absurd e hbv
        rw [isPrefixOf_cons_cons, List.cons_append, isPrefixOf_cons_cons, hwc2]
        simp
    · exact isPrefixOf_head_ne '1' c _ _ (fun e => h1 e.symm)

theorem isPrefixOf_one_w_cs (w : Char) (hwd : isDigitCh w = false) (hws : w ≠ ' ')
    (cs tail : Str) (hcs : constGood cs = true) (htail : tailOK tail) :
    (['1', w]).isPrefixOf (cs ++ tail) = false := by
  rcases constGood_cases cs hcs with ⟨r, rfl, hd⟩ | ⟨hd, _⟩
  · rw [List.cons_append]
    exact isPrefixOf_head_ne '1' '-' _ _ (by decide)
  · obtain ⟨c, r, rfl, hcdig, hrd⟩ := digitsNE_shape cs hd
    rw [List.cons_append]
    by_cases h1 : c = '1'
    · subst h1
      rw [isPrefixOf_cons_cons]
      cases r with
      | nil =>
        rcases htail with rfl | rfl
        · rw [List.nil_append]
          simp [List.isPrefixOf]
        · rw [List.nil_append, isPrefixOf_cons_cons, beq_eq_false_iff_ne.mpr hws]
          simp
      | cons c2 r2 =>
        have hc2 : isDigitCh c2 = true := hrd c2 (List.mem_cons_self c2 r2)
        rw [List.cons_append, isPrefixOf_cons_cons,
          beq_eq_false_iff_ne.mpr (fun e => (isDigitCh_ne c2 w hc2 hwd) e.symm)]
        simp
    · exact isPrefixOf_head_ne '1' c _ _ (fun e => h1 e.symm)

theorem isPrefixOf_space_one_sign (w m : Char) (h1m : ('1' : Char) ≠ m) (zs : Str) :
    ([' ', '1', w]).isPrefixOf (' ' :: m :: zs) = false := by
  rw [isPrefixOf_cons_cons, isPrefixOf_cons_cons, beq_eq_false_iff_ne.mpr h1m]
  simp

theorem isPrefixOf_space_one_term (w v : Char) (hwdig : isDigitCh w = false)
    (hvdig : isDigitCh v = false) (u zs : Str) (hu : termGood v u = true) :
    ([' ', '1', w]).isPrefixOf (' ' :: (u ++ zs)) = false := by
  rw [isPrefixOf_cons_cons, isPrefixOf_one_w_term w v hwdig hvdig u zs hu]
  simp

theorem isPrefixOf_space_one_cs (w : Char) (hwd : isDigitCh w = false) (hws : w ≠ ' ')
    (cs tail : Str) (hcs : constGood cs = true) (htail : tailOK tail) :
    ([' ', '1', w]).isPrefixOf (' ' :: (cs ++ tail)) = false := by
  rw [isPrefixOf_cons_cons, isPrefixOf_one_w_cs w hwd hws cs tail hcs htail]
  simp

theorem hasSub_sign_space_dash (q : Char) (hq : q = '+' ∨ q = '-')
    (t1 u cs tail : Str) (m : Char)
    (ht1 : termGood 'x' t1 = true) (hu : termGood 'y' u = true)
    (hcs : constGood cs = true) (hm : m = '+' ∨ m = '-')
    (hmu : m = q → u.head? ≠ some '-') (htail : tailOK tail) :
    hasSub [q, ' ', '-'] (eqnCoreT t1 m u cs tail) = false := by
  have hqs : q ≠ ' ' := by rcases hq with rfl | rfl <;> decide
  have hqe : q ≠ '=' := by rcases hq with rfl | rfl <;> decide
  have hqb : q ≠ '\x7d' := by rcases hq with rfl | rfl <;> decide
  have hxq : ('x' : Char) ≠ q := by rcases hq with rfl | rfl <;> decide
  have hyq : ('y' : Char) ≠ q := by rcases hq with rfl | rfl <;> decide
  have hqdig : isDigitCh q = false := by rcases hq with rfl | rfl <;> decide
  unfold eqnCoreT
  rw [hasSub_append_mid q '-' t1 _ (termGood_no_space 'x' (by decide) t1 ht1)
    (fun _ => termGood_getLast_ne 'x' q hxq t1 ht1)]
  rw [hasSub_cons_false _ _ _ (isPrefixOf_head_ne q ' ' _ _ hqs)]
  by_cases hmq : m = q
  · subst hmq
    obtain ⟨c, ur, rfl, _⟩ := termGood_head 'y' u hu
    have hcq : c ≠ '-' := by
      intro e
      exact hmu rfl (by rw [e]; rfl)
    rw [hasSub_cons_false _ _ _ (isPrefixOf_sign_dash m c ur _ hcq)]
    rw [hasSub_cons_false _ _ _ (isPrefixOf_head_ne m ' ' _ _ hqs)]
    rw [hasSub_append_mid m '-' (c :: ur) _ (termGood_no_space 'y' (by decide) _ hu)
      (fun _ => termGood_getLast_ne 'y' m hyq _ hu)]
    rw [hasSub_cons_false _ _ _ (isPrefixOf_head_ne m ' ' _ _ hqs)]
    rw [hasSub_cons_false _ _ _ (isPrefixOf_head_ne m '=' _ _ hqe)]
    rw [hasSub_cons_false _ _ _ (isPrefixOf_head_ne m ' ' _ _ hqs)]
    rw [hasSub_append_mid m '-' cs _ (constGood_no_space cs hcs)
      (fun _ => constGood_getLast_ne m hqdig cs hcs)]
    rcases htail with rfl | rfl
    · rfl
    · rw [hasSub_cons_false _ _ _ (isPrefixOf_head_ne m ' ' _ _ hqs)]
      rw [hasSub_cons_false _ _ _ (isPrefixOf_head_ne m '\x7d' _ _ hqb)]
      rfl
  · rw [hasSub_cons_false _ _ _ (isPrefixOf_head_ne q m _ _ (fun e => hmq e.symm))]
    rw [hasSub_cons_false _ _ _ (isPrefixOf_head_ne q ' ' _ _ hqs)]
    rw [hasSub_append_mid q '-' u _ (termGood_no_space 'y' (by decide) u hu)
      (fun _ => termGood_getLast_ne 'y' q hyq u hu)]
    rw [hasSub_cons_false _ _ _ (isPrefixOf_head_ne q ' ' _ _ hqs)]
    rw [hasSub_cons_false _ _ _ (isPrefixOf_head_ne q '=' _ _ hqe)]
    rw [hasSub_cons_false _ _ _ (isPrefixOf_head_ne q ' ' _ _ hqs)]
    rw [hasSub_append_mid q '-' cs _ (constGood_no_space cs hcs)
      (fun _ => constGood_getLast_ne q hqdig cs hcs)]
    rcases htail with rfl | rfl
    · rfl
    · rw [hasSub_cons_false _ _ _ (isPrefixOf_head_ne q ' ' _ _ hqs)]
      rw [hasSub_cons_false _ _ _ (isPrefixOf_head_ne q '\x7d' _ _ hqb)]
      rfl

theorem hasSub_space_one (w : Char) (hw : w = 'x' ∨ w = 'y')
    (t1 u cs tail : Str) (m : Char)
    (ht1 : termGood 'x' t1 = true) (hu : termGood 'y' u = true)
    (hcs : constGood cs = true) (hm : m = '+' ∨ m = '-') (htail : tailOK tail) :
    hasSub [' ', '1', w] (eqnCoreT t1 m u cs tail) = false := by
  have hwdig : isDigitCh w = false := by rcases hw with rfl | rfl <;> decide
  have hws : w ≠ ' ' := by rcases hw with rfl | rfl <;> decide
  have hsm : (' ' : Char) ≠ m := by rcases hm with rfl | rfl <;> decide
  have h1m : ('1' : Char) ≠ m := by rcases hm with rfl | rfl <;> decide
  unfold eqnCoreT
  rw [hasSub_append_left ' ' ['1', w] t1 _ (termGood_no_space 'x' (by decide) t1 ht1)]
  rw [hasSub_cons_false _ _ _ (isPrefixOf_space_one_sign w m h1m _)]
  rw [hasSub_cons_false _ _ _ (isPrefixOf_head_ne ' ' m _ _ hsm)]
  rw [hasSub_cons_false _ _ _ (isPrefixOf_space_one_term w 'y' hwdig (by decide) u _ hu)]
  rw [hasSub_append_left ' ' ['1', w] u _ (termGood_no_space 'y' (by decide) u hu)]
  rw [hasSub_cons_false _ _ _ (isPrefixOf_space_one_sign w '=' (by decide) _)]
  rw [hasSub_cons_false _ _ _ (isPrefixOf_head_ne ' ' '=' _ _ (by decide))]
  rw [hasSub_cons_false _ _ _ (isPrefixOf_space_one_cs w hwdig hws cs tail hcs htail)]
  rw [hasSub_append_left ' ' ['1', w] cs _ (constGood_no_space cs hcs)]
  rcases htail with rfl | rfl
  · rfl
  · rw [hasSub_cons_false _ _ _ (isPrefixOf_space_one_sign w '\x7d' (by decide) _)]
    rw [hasSub_cons_false _ _ _ (isPrefixOf_head_ne ' ' '\x7d' _ _ (by decide))]
    rfl

theorem pyReplace_plusdash_match (t1 r2 cs tail : Str)
    (ht1 : termGood 'x' t1 = true) (hr : termBody 'y' r2 = true)
    (hcs : constGood cs = true) (htail : '+' ∉ tail) :
    pyReplace patPlusDash repPlusDash (eqnCoreT t1 '+' ('-' :: r2) cs tail) =
      eqnCoreT t1 '-' r2 cs tail := by
  have ht1p : '+' ∉ t1 := termGood_not_mem 'x' '+' (by decide) (by decide) (by decide) t1 ht1
  have hr2p : '+' ∉ r2 := termBody_not_mem 'y' '+' r2 (by decide) (by decide) hr
  have hcsp : '+' ∉ cs := constGood_not_mem '+' (by decide) (by decide) cs hcs
  unfold eqnCoreT patPlusDash repPlusDash
  rw [pyReplace_append_left '+' [' ', '-'] ['-', ' '] t1 _ ht1p]
  rw [pyReplace_cons_neg _ _ _ _ (isPrefixOf_head_ne '+' ' ' _ _ (by decide))]
  have hmatch : (['+', ' ', '-'] : Str).isPrefixOf
      ('+' :: ' ' :: (('-' :: r2) ++ (' ' :: '=' :: ' ' :: (cs ++ tail)))) = true := by
    rw [List.cons_append, isPrefixOf_cons_cons, isPrefixOf_cons_cons, isPrefixOf_cons_cons]
    simp [List.isPrefixOf]
  rw [pyReplace_cons_pos ['+', ' ', '-'] ['-', ' '] _ _ (by decide) hmatch]
  have hdrop : (' ' :: (('-' :: r2) ++ (' ' :: '=' :: ' ' :: (cs ++ tail)))).drop
      ((['+', ' ', '-'] : Str).length - 1) = r2 ++ (' ' :: '=' :: ' ' :: (cs ++ tail)) := rfl
  rw [hdrop]
  have hnos : hasSub ['+', ' ', '-'] (r2 ++ (' ' :: '=' :: ' ' :: (cs ++ tail))) = false := by
    apply hasSub_not_mem
    intro hm
    rcases List.mem_append.mp hm with h1 | h1
    · exact hr2p h1
    · rcases List.mem_cons.mp h1 with e | h2
      · exact absurd e (by decide)
      · rcases List.mem_cons.mp h2 with e | h3
        · exact absurd e (by decide)
        · rcases List.mem_cons.mp h3 with e | h4
          · exact absurd e (by decide)
          · rcases List.mem_append.mp h4 with h5 | h5
            · exact hcsp h5
            · exact htail h5
  rw [pyReplace_of_hasSub_false _ _ _ hnos]
  rfl

theorem fixup_eq_of_steps (s s2 : Str)
    (h1 : pyReplace patPlusDash repPlusDash s = s2)
    (h2 : hasSub patDashDash s2 = false)
    (h3 : hasSub patOneX s2 = false)
    (h4 : hasSub patOneY s2 = false) :
    fixup s = s2 := by
  unfold fixup
  rw [h1, pyReplace_of_hasSub_false _ _ _ h2, pyReplace_of_hasSub_false _ _ _ h3,
    pyReplace_of_hasSub_false _ _ _ h4]

theorem hasSub_braced (pat s : Str)
    (h1 : pat.isPrefixOf ('\x7b' :: ' ' :: s) = false)
    (h2 : pat.isPrefixOf (' ' :: s) = false) :
    hasSub pat ('\x7b' :: ' ' :: s) = hasSub pat s := by
  cases pat with
  | nil => simp [List.isPrefixOf] at h1
  | cons p0 p' =>
    rw [hasSub_cons_false _ _ _ h1, hasSub_cons_false _ _ _ h2]

theorem pyReplace_braced (pat rep s : Str)
    (h1 : pat.isPrefixOf ('\x7b' :: ' ' :: s) = false)
    (h2 : pat.isPrefixOf (' ' :: s) = false) :
    pyReplace pat rep ('\x7b' :: ' ' :: s) = '\x7b' :: ' ' :: pyReplace pat rep s := by
  rw [pyReplace_cons_neg _ _ _ _ h1, pyReplace_cons_neg _ _ _ _ h2]

theorem fixup_braced_eq (s s2 : Str)
    (h1 : pyReplace patPlusDash repPlusDash s = s2)
    (h2 : hasSub patDashDash s2 = false)
    (h3 : hasSub patOneX s2 = false) (hb3 : patOneX.isPrefixOf (' ' :: s2) = false)
    (h4 : hasSub patOneY s2 = false) (hb4 : patOneY.isPrefixOf (' ' :: s2) = false) :
    fixup ('\x7b' :: ' ' :: s) = '\x7b' :: ' ' :: s2 := by
  unfold fixup
  rw [pyReplace_braced patPlusDash repPlusDash s
    (isPrefixOf_head_ne '+' '\x7b' _ _ (by decide))
    (isPrefixOf_head_ne '+' ' ' _ _ (by decide)), h1]
  rw [pyReplace_braced patDashDash repDashDash s2
    (isPrefixOf_head_ne '-' '\x7b' _ _ (by decide))
    (isPrefixOf_head_ne '-' ' ' _ _ (by decide)),
    pyReplace_of_hasSub_false _ _ _ h2]
  rw [pyReplace_braced patOneX repOneX s2
    (isPrefixOf_head_ne ' ' '\x7b' _ _ (by decide)) hb3,
    pyReplace_of_hasSub_false _ _ _ h3]
  rw [pyReplace_braced patOneY repOneY s2
    (isPrefixOf_head_ne ' ' '\x7b' _ _ (by decide)) hb4,
    pyReplace_of_hasSub_false _ _ _ h4]

theorem fixup_core_unsigned (t1 u cs tail : Str)
    (ht1 : termGood 'x' t1 = true) (hu : termGood 'y' u = true)
    (hud : u.head? ≠ some '-') (hcs : constGood cs = true) (htail : tailOK tail) :
    fixup (eqnCoreT t1 '+' u cs tail) = eqnCoreT t1 '+' u cs tail := by
  apply fixup_eq_of_steps
  · exact pyReplace_of_hasSub_false _ _ _
      (hasSub_sign_space_dash '+' (Or.inl rfl) t1 u cs tail '+' ht1 hu hcs (Or.inl rfl)
        (fun _ => hud) htail)
  · exact hasSub_sign_space_dash '-' (Or.inr rfl) t1 u cs tail '+' ht1 hu hcs (Or.inl rfl)
      (fun e => absurd e (by decide)) htail
  · exact hasSub_space_one 'x' (Or.inl rfl) t1 u cs tail '+' ht1 hu hcs (Or.inl rfl) htail
  · exact hasSub_space_one 'y' (Or.inr rfl) t1 u cs tail '+' ht1 hu hcs (Or.inl rfl) htail

theorem fixup_core_signed (t1 r2 cs tail : Str)
    (ht1 : termGood 'x' t1 = true) (hr : termBody 'y' r2 = true)
    (hr2 : bodyNotOneVar 'y' r2 = true) (hcs : constGood cs = true)
    (htail : tailOK tail) (htp : '+' ∉ tail) :
    fixup (eqnCoreT t1 '+' ('-' :: r2) cs tail) = eqnCoreT t1 '-' r2 cs tail := by
  have hu2 : termGood 'y' r2 = true := termGood_unsign 'y' (by decide) r2 hr hr2
  apply fixup_eq_of_steps
  · exact pyReplace_plusdash_match t1 r2 cs tail ht1 hr hcs htp
  · exact hasSub_sign_space_dash '-' (Or.inr rfl) t1 r2 cs tail '-' ht1 hu2 hcs (Or.inr rfl)
      (fun _ => termBody_head_ne_dash 'y' (by decide) r2 hr) htail
  · exact hasSub_space_one 'x' (Or.inl rfl) t1 r2 cs tail '-' ht1 hu2 hcs (Or.inr rfl) htail
  · exact hasSub_space_one 'y' (Or.inr rfl) t1 r2 cs tail '-' ht1 hu2 hcs (Or.inr rfl) htail

theorem fixup_core_dashResult (t1 r2 cs tail : Str)
    (ht1 : termGood 'x' t1 = true) (hr : termBody 'y' r2 = true)
    (hr2 : bodyNotOneVar 'y' r2 = true) (hcs : constGood cs = true)
    (htail : tailOK tail) :
    fixup (eqnCoreT t1 '-' r2 cs tail) = eqnCoreT t1 '-' r2 cs tail := by
  have hu2 : termGood 'y' r2 = true := termGood_unsign 'y' (by decide) r2 hr hr2
  apply fixup_eq_of_steps
  · exact pyReplace_of_hasSub_false _ _ _
      (hasSub_sign_space_dash '+' (Or.inl rfl) t1 r2 cs tail '-' ht1 hu2 hcs (Or.inr rfl)
        (fun e => absurd e (by decide)) htail)
  · exact hasSub_sign_space_dash '-' (Or.inr rfl) t1 r2 cs tail '-' ht1 hu2 hcs (Or.inr rfl)
      (fun _ => termBody_head_ne_dash 'y' (by decide) r2 hr) htail
  · exact hasSub_space_one 'x' (Or.inl rfl) t1 r2 cs tail '-' ht1 hu2 hcs (Or.inr rfl) htail
  · exact hasSub_space_one 'y' (Or.inr rfl) t1 r2 cs tail '-' ht1 hu2 hcs (Or.inr rfl) htail

theorem rawEquation_eq_core (a b c : Int) :
    rawEquation a b c =
      eqnCoreT (format_term a ['x']) '+' (format_term b ['y']) (intChars c) [] := by
  unfold rawEquation eqnCoreT
  simp

theorem bracedEquation_eq_core (a b c : Int) :
    bracedEquation a b c =
      '\x7b' :: ' ' ::
        eqnCoreT (format_term a ['x']) '+' (format_term b ['y']) (intChars c)
          [' ', '\x7d'] := by
  unfold bracedEquation rawEquation eqnCoreT
  simp

theorem fixup_rawEquation_facts (a b c : Int) (ha : a ≠ 0) (hb : b ≠ 0) :
    fixup (rawEquation a b c) = pyReplace patPlusDash repPlusDash (rawEquation a b c) ∧
    fixup (fixup (rawEquation a b c)) = fixup (rawEquation a b c) ∧
    hasSub patDashDash (rawEquation a b c) = false ∧
    hasSub patOneX (rawEquation a b c) = false ∧
    hasSub patOneY (rawEquation a b c) = false ∧
    hasSub patDashDash (fixup (rawEquation a b c)) = false ∧
    hasSub patOneX (fixup (rawEquation a b c)) = false ∧
    hasSub patOneY (fixup (rawEquation a b c)) = false := by
  have ht1 := termGood_format_term 'x' (by decide) (by decide) a ha
  have hu := termGood_format_term 'y' (by decide) (by decide) b hb
  have hcs := constGood_intChars c
  rw [rawEquation_eq_core a b c]
  rcases termGood_cases 'y' (format_term b ['y']) hu with ⟨r2, he, hr, hr2⟩ | ⟨hr, hr2, hh⟩
  · rw [he] at hu ⊢
    have hu2 : termGood 'y' r2 = true := termGood_unsign 'y' (by decide) r2 hr hr2
    have hfix := fixup_core_signed (format_term a ['x']) r2 (intChars c) [] ht1 hr hr2 hcs
      (Or.inl rfl) (by simp)
    have hrep := pyReplace_plusdash_match (format_term a ['x']) r2 (intChars c) [] ht1 hr hcs
      (by simp)
    refine ⟨?_, ?_, ?_, ?_, ?_, ?_, ?_, ?_⟩
    · rw [hfix, hrep]
    · rw [hfix]
      exact fixup_core_dashResult (format_term a ['x']) r2 (intChars c) [] ht1 hr hr2 hcs
        (Or.inl rfl)
    · exact hasSub_sign_space_dash '-' (Or.inr rfl) _ _ _ [] '+' ht1 hu hcs (Or.inl rfl)
        (fun e => absurd e (by decide)) (Or.inl rfl)
    · exact hasSub_space_one 'x' (Or.inl rfl) _ _ _ [] '+' ht1 hu hcs (Or.inl rfl) (Or.inl rfl)
    · exact hasSub_space_one 'y' (Or.inr rfl) _ _ _ [] '+' ht1 hu hcs (Or.inl rfl) (Or.inl rfl)
    · rw [hfix]
      exact hasSub_sign_space_dash '-' (Or.inr rfl) _ r2 _ [] '-' ht1 hu2 hcs (Or.inr rfl)
        (fun _ => termBody_head_ne_dash 'y' (by decide) r2 hr) (Or.inl rfl)
    · rw [hfix]
      exact hasSub_space_one 'x' (Or.inl rfl) _ r2 _ [] '-' ht1 hu2 hcs (Or.inr rfl) (Or.inl rfl)
    · rw [hfix]
      exact hasSub_space_one 'y' (Or.inr rfl) _ r2 _ [] '-' ht1 hu2 hcs (Or.inr rfl) (Or.inl rfl)
  · have hud : (format_term b ['y']).head? ≠ some '-' := hh
    have hfix := fixup_core_unsigned (format_term a ['x']) (format_term b ['y']) (intChars c) []
      ht1 hu hud hcs (Or.inl rfl)
    have hsp : hasSub patPlusDash
        (eqnCoreT (format_term a ['x']) '+' (format_term b ['y']) (intChars c) []) = false :=
      hasSub_sign_space_dash '+' (Or.inl rfl) _ _ _ [] '+' ht1 hu hcs (Or.inl rfl)
        (fun _ => hud) (Or.inl rfl)
    have hdd : hasSub patDashDash
        (eqnCoreT (format_term a ['x']) '+' (format_term b ['y']) (intChars c) []) = false :=
      hasSub_sign_space_dash '-' (Or.inr rfl) _ _ _ [] '+' ht1 hu hcs (Or.inl rfl)
        (fun e => absurd e (by decide)) (Or.inl rfl)
    have hox : hasSub patOneX
        (eqnCoreT (format_term a ['x']) '+' (format_term b ['y']) (intChars c) []) = false :=
      hasSub_space_one 'x' (Or.inl rfl) _ _ _ [] '+' ht1 hu hcs (Or.inl rfl) (Or.inl rfl)
    have hoy : hasSub patOneY
        (eqnCoreT (format_term a ['x']) '+' (format_term b ['y']) (intChars c) []) = false :=
      hasSub_space_one 'y' (Or.inr rfl) _ _ _ [] '+' ht1 hu hcs (Or.inl rfl) (Or.inl rfl)
    refine ⟨?_, ?_, hdd, hox, hoy, ?_, ?_, ?_⟩
    · rw [hfix, pyReplace_of_hasSub_false _ _ _ hsp]
    · rw [hfix, hfix]
    · rw [hfix]; exact hdd
    · rw [hfix]; exact hox
    · rw [hfix]; exact hoy

theorem fixup_bracedEquation_facts (a b c : Int) (ha : a ≠ 0) (hb : b ≠ 0) :
    fixup (bracedEquation a b c) = pyReplace patPlusDash repPlusDash (bracedEquation a b c) ∧
    fixup (fixup (bracedEquation a b c)) = fixup (bracedEquation a b c) := by
  have ht1 := termGood_format_term 'x' (by decide) (by decide) a ha
  have hu := termGood_format_term 'y' (by decide) (by decide) b hb
  have hcs := constGood_intChars c
  rw [bracedEquation_eq_core a b c]
  rcases termGood_cases 'y' (format_term b ['y']) hu with ⟨r2, he, hr, hr2⟩ | ⟨hr, hr2, hh⟩
  · rw [he] at hu ⊢
    have hu2 : termGood 'y' r2 = true := termGood_unsign 'y' (by decide) r2 hr hr2
    have hrep := pyReplace_plusdash_match (format_term a ['x']) r2 (intChars c) [' ', '\x7d']
      ht1 hr hcs (by decide)
    have hdd : hasSub patDashDash
        (eqnCoreT (format_term a ['x']) '-' r2 (intChars c) [' ', '\x7d']) = false :=
      hasSub_sign_space_dash '-' (Or.inr rfl) _ r2 _ _ '-' ht1 hu2 hcs (Or.inr rfl)
        (fun _ => termBody_head_ne_dash 'y' (by decide) r2 hr) (Or.inr rfl)
    have hox : hasSub patOneX
        (eqnCoreT (format_term a ['x']) '-' r2 (intChars c) [' ', '\x7d']) = false :=
      hasSub_space_one 'x' (Or.inl rfl) _ r2 _ _ '-' ht1 hu2 hcs (Or.inr rfl) (Or.inr rfl)
    have hoy : hasSub patOneY
        (eqnCoreT (format_term a ['x']) '-' r2 (intChars c) [' ', '\x7d']) = false :=
      hasSub_space_one 'y' (Or.inr rfl) _ r2 _ _ '-' ht1 hu2 hcs (Or.inr rfl) (Or.inr rfl)
    have hb3 : patOneX.isPrefixOf
        (' ' :: eqnCoreT (format_term a ['x']) '-' r2 (intChars c) [' ', '\x7d']) = false :=
      isPrefixOf_space_one_term 'x' 'x' (by decide) (by decide) (format_term a ['x']) _ ht1
    have hb4 : patOneY.isPrefixOf
        (' ' :: eqnCoreT (format_term a ['x']) '-' r2 (intChars c) [' ', '\x7d']) = false :=
      isPrefixOf_space_one_term 'y' 'x' (by decide) (by decide) (format_term a ['x']) _ ht1
    have hfixb := fixup_braced_eq
      (eqnCoreT (format_term a ['x']) '+' ('-' :: r2) (intChars c) [' ', '\x7d'])
      (eqnCoreT (format_term a ['x']) '-' r2 (intChars c) [' ', '\x7d'])
      hrep hdd hox hb3 hoy hb4
    constructor
    · rw [hfixb]
      rw [pyReplace_braced patPlusDash repPlusDash _
        (isPrefixOf_head_ne '+' '\x7b' _ _ (by decide))
        (isPrefixOf_head_ne '+' ' ' _ _ (by decide)), hrep]
    · rw [hfixb]
      have hsp2 : pyReplace patPlusDash repPlusDash
          (eqnCoreT (format_term a ['x']) '-' r2 (intChars c) [' ', '\x7d']) =
          eqnCoreT (format_term a ['x']) '-' r2 (intChars c) [' ', '\x7d'] :=
        pyReplace_of_hasSub_false _ _ _
          (hasSub_sign_space_dash '+' (Or.inl rfl) _ r2 _ _ '-' ht1 hu2 hcs (Or.inr rfl)
            (fun e => absurd e (by decide)) (Or.inr rfl))
      exact fixup_braced_eq _ _ hsp2 hdd hox hb3 hoy hb4
  · have hud : (format_term b ['y']).head? ≠ some '-' := hh
    have hsp : hasSub patPlusDash
        (eqnCoreT (format_term a ['x']) '+' (format_term b ['y']) (intChars c)
          [' ', '\x7d']) = false :=
      hasSub_sign_space_dash '+' (Or.inl rfl) _ _ _ _ '+' ht1 hu hcs (Or.inl rfl)
        (fun _ => hud) (Or.inr rfl)
    have hdd : hasSub patDashDash
        (eqnCoreT (format_term a ['x']) '+' (format_term b ['y']) (intChars c)
          [' ', '\x7d']) = false :=
      hasSub_sign_space_dash '-' (Or.inr rfl) _ _ _ _ '+' ht1 hu hcs (Or.inl rfl)
        (fun e => absurd e (by decide)) (Or.inr rfl)
    have hox : hasSub patOneX
        (eqnCoreT (format_term a ['x']) '+' (format_term b ['y']) (intChars c)
          [' ', '\x7d']) = false :=
      hasSub_space_one 'x' (Or.inl rfl) _ _ _ _ '+' ht1 hu hcs (Or.inl rfl) (Or.inr rfl)
    have hoy : hasSub patOneY
        (eqnCoreT (format_term a ['x']) '+' (format_term b ['y']) (intChars c)
          [' ', '\x7d']) = false :=
      hasSub_space_one 'y' (Or.inr rfl) _ _ _ _ '+' ht1 hu hcs (Or.inl rfl) (Or.inr rfl)
    have hb3 : patOneX.isPrefixOf
        (' ' :: eqnCoreT (format_term a ['x']) '+' (format_term b ['y']) (intChars c)
          [' ', '\x7d']) = false :=
      isPrefixOf_space_one_term 'x' 'x' (by decide) (by decide) (format_term a ['x']) _ ht1
    have hb4 : patOneY.isPrefixOf
        (' ' :: eqnCoreT (format_term a ['x']) '+' (format_term b ['y']) (intChars c)
          [' ', '\x7d']) = false :=
      isPrefixOf_space_one_term 'y' 'x' (by decide) (by decide) (format_term a ['x']) _ ht1
    have hid : pyReplace patPlusDash repPlusDash
        (eqnCoreT (format_term a ['x']) '+' (format_term b ['y']) (intChars c)
          [' ', '\x7d']) =
        eqnCoreT (format_term a ['x']) '+' (format_term b ['y']) (intChars c)
          [' ', '\x7d'] :=
      pyReplace_of_hasSub_false _ _ _ hsp
    have hfixb := fixup_braced_eq _ _ hid hdd hox hb3 hoy hb4
    constructor
    · rw [hfixb]
      rw [pyReplace_braced patPlusDash repPlusDash _
        (isPrefixOf_head_ne '+' '\x7b' _ _ (by decide))
        (isPrefixOf_head_ne '+' ' ' _ _ (by decide)), hid]
    · rw [hfixb]
      exact fixup_braced_eq _ _ hid hdd hox hb3 hoy hb4

/-- C7: the four-step fixup pipeline (first `"+ -" -> "- "`, then
`"- -" -> "+ "`, then `" 1x" -> " x"`, then `" 1y" -> " y"`) is idempotent
on the synthesizer's formatted equation strings, for every non-zero
coefficient pair in `[-20, 20]` and every constant of magnitude at most
120, in both the plain and the brace-wrapped format: applying the four
sequential substitutions twice yields the same string as applying them
once. -/
theorem C7_fixup_idempotent (a b c : Int)
    (ha : a ≠ 0 ∧ -20 ≤ a ∧ a ≤ 20) (hb : b ≠ 0 ∧ -20 ≤ b ∧ b ≤ 20)
    (hc : -120 ≤ c ∧ c ≤ 120) :
    fixup (fixup (rawEquation a b c)) = fixup (rawEquation a b c) ∧
    fixup (fixup (bracedEquation a b c)) = fixup (bracedEquation a b c) :=
  ⟨(fixup_rawEquation_facts a b c ha.1 hb.1).2.1,
   (fixup_bracedEquation_facts a b c ha.1 hb.1).2⟩

/-- Witness for C7 at the concrete tuple `a = 3, b = -2, c = 7`. -/
theorem C7_fixup_idempotent_witness :
    fixup (fixup (rawEquation 3 (-2) 7)) = fixup (rawEquation 3 (-2) 7) ∧
    fixup (fixup (bracedEquation 3 (-2) 7)) = fixup (bracedEquation 3 (-2) 7) :=
  C7_fixup_idempotent 3 (-2) 7 (by decide) (by decide) (by decide)

/-- C9: on every formatted equation string of the synthesizer (non-zero
coefficients in `[-20, 20]`, constant of magnitude at most 120), the
patterns `"- -"`, `" 1x"` and `" 1y"` occur neither before nor after the
first substitution, so the full four-step pipeline is extensionally equal
to the single substitution `"+ -" -> "- "`. -/
theorem C9_pipeline_single_substitution (a b c : Int)
    (ha : a ≠ 0 ∧ -20 ≤ a ∧ a ≤ 20) (hb : b ≠ 0 ∧ -20 ≤ b ∧ b ≤ 20)
    (hc : -120 ≤ c ∧ c ≤ 120) :
    hasSub patDashDash (rawEquation a b c) = false ∧
    hasSub patOneX (rawEquation a b c) = false ∧
    hasSub patOneY (rawEquation a b c) = false ∧
    hasSub patDashDash (pyReplace patPlusDash repPlusDash (rawEquation a b c)) = false ∧
    hasSub patOneX (pyReplace patPlusDash repPlusDash (rawEquation a b c)) = false ∧
    hasSub patOneY (pyReplace patPlusDash repPlusDash (rawEquation a b c)) = false ∧
    fixup (rawEquation a b c) = pyReplace patPlusDash repPlusDash (rawEquation a b c) := by
  obtain ⟨h1, h2, h3, h4, h5, h6, h7, h8⟩ := fixup_rawEquation_facts a b c ha.1 hb.1
  refine ⟨h3, h4, h5, ?_, ?_, ?_, h1⟩
  · rw [← h1]; exact h6
  · rw [← h1]; exact h7
  · rw [← h1]; exact h8

/-- Witness for C9 at the concrete tuple `a = 1, b = -1, c = 5`. -/
theorem C9_pipeline_single_substitution_witness :
    hasSub patDashDash (rawEquation 1 (-1) 5) = false ∧
    hasSub patOneX (rawEquation 1 (-1) 5) = false ∧
    hasSub patOneY (rawEquation 1 (-1) 5) = false ∧
    hasSub patDashDash (pyReplace patPlusDash repPlusDash (rawEquation 1 (-1) 5)) = false ∧
    hasSub patOneX (pyReplace patPlusDash repPlusDash (rawEquation 1 (-1) 5)) = false ∧
    hasSub patOneY (pyReplace patPlusDash repPlusDash (rawEquation 1 (-1) 5)) = false ∧
    fixup (rawEquation 1 (-1) 5) = pyReplace patPlusDash repPlusDash (rawEquation 1 (-1) 5) :=
  C9_pipeline_single_substitution 1 (-1) 5 (by decide) (by decide) (by decide)

theorem acceptedTuple_spec (s : Nat → Int) :
    ∀ (fuel k : Nat) (t : RawTuple), acceptedTuple s fuel k = some t →
      validTuple t ∧ ∃ j, t = drawTuple s j := by
  intro fuel
  induction fuel with
  | zero => intro k t h; simp [acceptedTuple] at h
  | succ fuel ih =>
    intro k t h
    unfold acceptedTuple at h
    by_cases hv : validTuple (drawTuple s k)
    · rw [if_pos hv] at h
      injection h with h2
      subst h2
      exact ⟨hv, k, rfl⟩
    · rw [if_neg hv] at h
      exact ih (k + 1) t h

/-- C1: every equation system the synthesizer returns is valid: the returned
solution is the drawn `(x, y)` pair with both components in `[-20, 20]`, the
four coefficients of the accepted tuple are non-zero integers in
`[-20, 20]`, the two equation strings are exactly the fixed-up formats of
those coefficients with constants `c_i = a_i * x + b_i * y` (so each
equation holds exactly at the returned solution), and both constants have
magnitude at most 120. -/
theorem C1_generator_valid (s : Nat → Int)
    (hs : ∀ n, -20 ≤ s n ∧ s n ≤ 20) (fuel : Nat)
    (eqs : List Str) (sol : Int × Int)
    (h : generate_valid_equation_system s fuel = some (eqs, sol)) :
    ∃ t : RawTuple,
      sol = (t.x, t.y) ∧
      eqs = [fixup (rawEquation t.a1 t.b1 (t.a1 * t.x + t.b1 * t.y)),
             fixup (rawEquation t.a2 t.b2 (t.a2 * t.x + t.b2 * t.y))] ∧
      t.a1 ≠ 0 ∧ t.b1 ≠ 0 ∧ t.a2 ≠ 0 ∧ t.b2 ≠ 0 ∧
      -20 ≤ t.a1 ∧ t.a1 ≤ 20 ∧ -20 ≤ t.b1 ∧ t.b1 ≤ 20 ∧
      -20 ≤ t.a2 ∧ t.a2 ≤ 20 ∧ -20 ≤ t.b2 ∧ t.b2 ≤ 20 ∧
      -20 ≤ t.x ∧ t.x ≤ 20 ∧ -20 ≤ t.y ∧ t.y ≤ 20 ∧
      |t.a1 * t.x + t.b1 * t.y| ≤ 120 ∧ |t.a2 * t.x + t.b2 * t.y| ≤ 120 := by
  unfold generate_valid_equation_system at h
  cases hacc : acceptedTuple s fuel 0 with
  | none => rw [hacc] at h; simp at h
  | some t =>
    rw [hacc] at h
    simp only [Option.map_some'] at h
    injection h with h2
    rw [Prod.mk.injEq] at h2
    obtain ⟨he, hsol⟩ := h2
    obtain ⟨hv, j, hj⟩ := acceptedTuple_spec s fuel 0 t hacc
    obtain ⟨hv1, hv2, hv3⟩ := hv
    simp only [not_or] at hv1
    subst hj
    exact ⟨drawTuple s j, hsol.symm, he.symm,
      hv1.1, hv1.2.1, hv1.2.2.1, hv1.2.2.2,
      (hs (6*j+2)).1, (hs (6*j+2)).2, (hs (6*j+3)).1, (hs (6*j+3)).2,
      (hs (6*j+4)).1, (hs (6*j+4)).2, (hs (6*j+5)).1, (hs (6*j+5)).2,
      (hs (6*j)).1, (hs (6*j)).2, (hs (6*j+1)).1, (hs (6*j+1)).2,
      hv2, hv3⟩

/-- Witness for C1: the constant-one stream accepts its first tuple. -/
theorem C1_generator_valid_witness :
    ∃ t : RawTuple,
      ((1, 1) : Int × Int) = (t.x, t.y) ∧
      [('x' :: ' ' :: '+' :: ' ' :: 'y' :: ' ' :: '=' :: ' ' :: ['2']),
       ('x' :: ' ' :: '+' :: ' ' :: 'y' :: ' ' :: '=' :: ' ' :: ['2'])] =
        [fixup (rawEquation t.a1 t.b1 (t.a1 * t.x + t.b1 * t.y)),
         fixup (rawEquation t.a2 t.b2 (t.a2 * t.x + t.b2 * t.y))] ∧
      t.a1 ≠ 0 ∧ t.b1 ≠ 0 ∧ t.a2 ≠ 0 ∧ t.b2 ≠ 0 ∧
      -20 ≤ t.a1 ∧ t.a1 ≤ 20 ∧ -20 ≤ t.b1 ∧ t.b1 ≤ 20 ∧
      -20 ≤ t.a2 ∧ t.a2 ≤ 20 ∧ -20 ≤ t.b2 ∧ t.b2 ≤ 20 ∧
      -20 ≤ t.x ∧ t.x ≤ 20 ∧ -20 ≤ t.y ∧ t.y ≤ 20 ∧
      |t.a1 * t.x + t.b1 * t.y| ≤ 120 ∧ |t.a2 * t.x + t.b2 * t.y| ≤ 120 :=
  C1_generator_valid oneStream
    (fun _ => ⟨by norm_num [oneStream], by norm_num [oneStream]⟩) 1
    [('x' :: ' ' :: '+' :: ' ' :: 'y' :: ' ' :: '=' :: ' ' :: ['2']),
     ('x' :: ' ' :: '+' :: ' ' :: 'y' :: ' ' :: '=' :: ' ' :: ['2'])] (1, 1) (by decide)

theorem acceptedTuple_terminates (s : Nat → Int) (k : Nat)
    (hk : validTuple (drawTuple s k)) :
    ∀ (fuel start : Nat), start ≤ k → k < start + fuel →
      (acceptedTuple s fuel start).isSome = true := by
  intro fuel
  induction fuel with
  | zero => intro start h1 h2; omega
  | succ fuel ih =>
    intro start h1 h2
    unfold acceptedTuple
    by_cases hv : validTuple (drawTuple s start)
    · rw [if_pos hv]; rfl
    · rw [if_neg hv]
      have hne : start ≠ k := fun e => hv (e ▸ hk)
      exact ih (start + 1) (by omega) (by omega)

/-- C8: the rejection loop never fails: for every random stream that at some
iteration supplies a tuple passing the rejection tests, the loop terminates
(fuel one past that iteration suffices, with no retry cap needed) and the
generator returns an equation system built from an accepted, valid tuple. -/
theorem C8_generator_terminates (s : Nat → Int) (k : Nat)
    (h : validTuple (drawTuple s k)) :
    ∃ eqs sol, generate_valid_equation_system s (k + 1) = some (eqs, sol) ∧
      ∃ t, acceptedTuple s (k + 1) 0 = some t ∧ validTuple t := by
  have hsome := acceptedTuple_terminates s k h (k + 1) 0 (by omega) (by omega)
  cases hacc : acceptedTuple s (k + 1) 0 with
  | none => rw [hacc] at hsome; simp at hsome
  | some t =>
    obtain ⟨hv, j, hj⟩ := acceptedTuple_spec s (k + 1) 0 t hacc
    refine ⟨[fixup (rawEquation t.a1 t.b1 (t.a1 * t.x + t.b1 * t.y)),
             fixup (rawEquation t.a2 t.b2 (t.a2 * t.x + t.b2 * t.y))],
      (t.x, t.y), ?_, t, rfl, hv⟩
    unfold generate_valid_equation_system
    rw [hacc]
    rfl

/-- Witness for C8: the constant-one stream passes the tests at iteration
zero, and the generator succeeds with fuel one. -/
theorem C8_generator_terminates_witness :
    ∃ eqs sol, generate_valid_equation_system oneStream 1 = some (eqs, sol) ∧
      ∃ t, acceptedTuple oneStream 1 0 = some t ∧ validTuple t :=
  C8_generator_terminates oneStream 0 (by decide)

theorem expectedBlocks_length (xpos adv : ℚ) :
    ∀ (items : List EqSys) (n : Nat) (y : ℚ),
      (expectedBlocks xpos adv n y items).length = items.length := by
  intro items
  induction items with
  | nil => intro n y; rfl
  | cons e rest ih =>
    intro n y
    show (expectedBlocks xpos adv n y (e :: rest)).length = rest.length + 1
    unfold expectedBlocks
    rw [List.length_cons, ih]

theorem expectedBlocks_map_eqNum (xpos adv : ℚ) :
    ∀ (items : List EqSys) (n : Nat) (y : ℚ),
      (expectedBlocks xpos adv n y items).map DrawBlock.eqNum =
        List.range' n items.length := by
  intro items
  induction items with
  | nil => intro n y; rfl
  | cons e rest ih =>
    intro n y
    unfold expectedBlocks
    rw [List.map_cons, ih]
    rfl

theorem expectedBlocks_map_sys (xpos adv : ℚ) :
    ∀ (items : List EqSys) (n : Nat) (y : ℚ),
      (expectedBlocks xpos adv n y items).map (fun b => b.sys) = items := by
  intro items
  induction items with
  | nil => intro n y; rfl
  | cons e rest ih =>
    intro n y
    unfold expectedBlocks
    rw [List.map_cons, ih]

theorem expectedBlocks_map_entry (xpos adv : ℚ) :
    ∀ (items : List EqSys) (n : Nat) (y : ℚ),
      (expectedBlocks xpos adv n y items).map (fun b => footerEntry b.eqNum b.sys.2) =
        ((List.range' n items.length).zip items).map (fun p => footerEntry p.1 p.2.2) := by
  intro items
  induction items with
  | nil => intro n y; rfl
  | cons e rest ih =>
    intro n y
    unfold expectedBlocks
    rw [List.map_cons, ih]
    rfl

theorem dynColLoop_no_drop (xpos lh sp footerY : ℚ) :
    ∀ (items : List EqSys) (startNum : Nat) (y : ℚ),
      (∀ i : Nat, i + 1 < items.length →
        footerY + 15 * mm ≤ y - ((i : ℚ) + 1) * (2 * lh + sp)) →
      dynColLoop xpos lh sp footerY startNum items y =
        expectedBlocks xpos (2 * lh + sp) startNum y items := by
  intro items
  induction items with
  | nil => intro startNum y _; rfl
  | cons e rest ih =>
    intro startNum y h
    show (⟨startNum, e, xpos, y⟩ : DrawBlock) ::
        (if (y - 2 * lh) - sp < footerY + 15 * mm then []
         else dynColLoop xpos lh sp footerY (startNum + 1) rest ((y - 2 * lh) - sp)) =
      ⟨startNum, e, xpos, y⟩ ::
        expectedBlocks xpos (2 * lh + sp) (startNum + 1) (y - (2 * lh + sp)) rest
    congr 1
    cases rest with
    | nil =>
      by_cases hb : (y - 2 * lh) - sp < footerY + 15 * mm
      · rw [if_pos hb]; rfl
      · rw [if_neg hb]; rfl
    | cons e2 rest2 =>
      have hb : ¬ ((y - 2 * lh) - sp < footerY + 15 * mm) := by
        apply not_lt.mpr
        have h0 := h 0 (by simp)
        push_cast at h0
        linarith
      rw [if_neg hb]
      have hy : (y - 2 * lh) - sp = y - (2 * lh + sp) := by ring
      rw [hy]
      apply ih
      intro i hi
      have hstep := h (i + 1) (by simpa using Nat.succ_lt_succ hi)
      push_cast at hstep
      push_cast
      linarith

theorem dynColLoop_drop (xpos lh sp footerY : ℚ) :
    ∀ (items : List EqSys) (j startNum : Nat) (y : ℚ),
      1 ≤ j → j < items.length →
      y - (j : ℚ) * (2 * lh + sp) < footerY + 15 * mm →
      (∀ i : Nat, 1 ≤ i → i < j →
        footerY + 15 * mm ≤ y - (i : ℚ) * (2 * lh + sp)) →
      dynColLoop xpos lh sp footerY startNum items y =
        expectedBlocks xpos (2 * lh + sp) startNum y (items.take j) := by
  intro items
  induction items with
  | nil =>
    intro j startNum y h1 h2 _ _
    simp at h2
  | cons e rest ih =>
    intro j startNum y h1 h2 hviol hprev
    obtain ⟨j', rfl⟩ : ∃ j', j = j' + 1 := ⟨j - 1, by omega⟩
    show (⟨startNum, e, xpos, y⟩ : DrawBlock) ::
        (if (y - 2 * lh) - sp < footerY + 15 * mm then []
         else dynColLoop xpos lh sp footerY (startNum + 1) rest ((y - 2 * lh) - sp)) =
      ⟨startNum, e, xpos, y⟩ ::
        expectedBlocks xpos (2 * lh + sp) (startNum + 1) (y - (2 * lh + sp)) (rest.take j')
    congr 1
    cases j' with
    | zero =>
      have hb : (y - 2 * lh) - sp < footerY + 15 * mm := by
        push_cast at hviol
        linarith
      rw [if_pos hb]
      rfl
    | succ j'' =>
      have hnb : ¬ ((y - 2 * lh) - sp < footerY + 15 * mm) := by
        apply not_lt.mpr
        have hp := hprev 1 (by omega) (by omega)
        push_cast at hp
        linarith
      rw [if_neg hnb]
      have hy : (y - 2 * lh) - sp = y - (2 * lh + sp) := by ring
      rw [hy]
      apply ih (j'' + 1) (startNum + 1) (y - (2 * lh + sp)) (by omega) (by simpa using h2) ?_ ?_
      · push_cast at hviol
        push_cast
        linarith
      · intro i hi1 hi2
        have hp := hprev (i + 1) (by omega) (by omega)
        push_cast at hp
        push_cast
        linarith

theorem dynColLoop_chain (xpos lh sp footerY : ℚ) :
    ∀ (items : List EqSys) (startNum : Nat) (y : ℚ),
      List.Chain' (fun b1 b2 : DrawBlock => b1.y - b2.y = 2 * lh + sp)
        (dynColLoop xpos lh sp footerY startNum items y) := by
  intro items
  induction items with
  | nil => intro n y; simp [dynColLoop]
  | cons e rest ih =>
    intro n y
    show List.Chain' (fun b1 b2 : DrawBlock => b1.y - b2.y = 2 * lh + sp)
      (⟨n, e, xpos, y⟩ ::
        (if (y - 2 * lh) - sp < footerY + 15 * mm then []
         else dynColLoop xpos lh sp footerY (n + 1) rest ((y - 2 * lh) - sp)))
    by_cases hb : (y - 2 * lh) - sp < footerY + 15 * mm
    · rw [if_pos hb]
      simp
    · rw [if_neg hb]
      cases rest with
      | nil => simp [dynColLoop]
      | cons e2 r2 =>
        show List.Chain' (fun b1 b2 : DrawBlock => b1.y - b2.y = 2 * lh + sp)
          (⟨n, e, xpos, y⟩ :: ⟨n + 1, e2, xpos, (y - 2 * lh) - sp⟩ ::
            (if (((y - 2 * lh) - sp - 2 * lh) - sp) < footerY + 15 * mm then []
             else dynColLoop xpos lh sp footerY (n + 2) r2
               (((y - 2 * lh) - sp - 2 * lh) - sp)))
        rw [List.chain'_cons]
        constructor
        · show y - ((y - 2 * lh) - sp) = 2 * lh + sp
          ring
        · exact ih (n + 1) ((y - 2 * lh) - sp)

/-- C4: in the dynamic-fit column loop, when the `j`-th start y-coordinate
(at the column's constant advance) is the first to fall below
`footerY + safetyMargin` with `safetyMargin = 15 * mm`, that item and all
later items of the column are excluded while the `j` earlier items remain
placed at their expected positions, and the number of dropped items is
recoverable from the returned instruction list as the difference of
lengths. -/
theorem C4_overflow_drop (y0 footerY lh xpos : ℚ) (startNum j : Nat)
    (items : List EqSys) (adv : ℚ)
    (hadv : adv = 2 * lh + dynSpacing y0 footerY lh items.length)
    (hne : items ≠ [])
    (hj1 : 1 ≤ j) (hjn : j < items.length)
    (hviol : y0 - (j : ℚ) * adv < footerY + 15 * mm)
    (hprev : ∀ i : Nat, 1 ≤ i → i < j → footerY + 15 * mm ≤ y0 - (i : ℚ) * adv) :
    dynColumnWith y0 footerY lh xpos startNum items =
      expectedBlocks xpos adv startNum y0 (items.take j) ∧
    (dynColumnWith y0 footerY lh xpos startNum items).length = j ∧
    items.length - (dynColumnWith y0 footerY lh xpos startNum items).length =
      items.length - j := by
  have hlen : ¬ (items.length = 0) := fun e => hne (List.length_eq_zero.mp e)
  have h1 : dynColumnWith y0 footerY lh xpos startNum items =
      dynColLoop xpos lh (dynSpacing y0 footerY lh items.length) footerY startNum items y0 := by
    unfold dynColumnWith
    rw [if_neg hlen]
  subst hadv
  have h2 := dynColLoop_drop xpos lh (dynSpacing y0 footerY lh items.length) footerY items j
    startNum y0 hj1 hjn hviol hprev
  have h3 : (dynColumnWith y0 footerY lh xpos startNum items).length = j := by
    rw [h1, h2, expectedBlocks_length]
    rw [List.length_take]
    omega
  exact ⟨h1.trans h2, h3, by rw [h3]⟩

/-- Witness for C4: a three-item column whose second item would start below
the boundary; exactly one item is placed and two are dropped. -/
theorem C4_overflow_drop_witness :
    dynColumnWith (16 * mm) 0 mm 0 1 (dummySystems 3) =
      expectedBlocks 0 (2 * mm) 1 (16 * mm) ((dummySystems 3).take 1) ∧
    (dynColumnWith (16 * mm) 0 mm 0 1 (dummySystems 3)).length = 1 ∧
    (dummySystems 3).length - (dynColumnWith (16 * mm) 0 mm 0 1 (dummySystems 3)).length =
      (dummySystems 3).length - 1 := by
  have h := C4_overflow_drop (16 * mm) 0 mm 0 1 1 (dummySystems 3) (2 * mm) ?_ ?_ ?_ ?_ ?_ ?_
  · exact h
  · show (2 : ℚ) * mm = 2 * mm + dynSpacing (16 * mm) 0 mm (dummySystems 3).length
    have hl : (dummySystems 3).length = 3 := by decide
    rw [hl]
    unfold dynSpacing dynAvail
    rw [if_pos (by omega)]
    push_cast
    ring
  · decide
  · omega
  · decide
  · show 16 * mm - ((1 : ℕ) : ℚ) * (2 * mm) < 0 + 15 * mm
    push_cast
    norm_num [mm]
  · intro i h1 h2
    omega

/-- C5: in a dynamic-fit column, consecutive placed blocks are separated by
exactly `itemHeight + spacingPerItem` (with `itemHeight = 2 * lineHeight`);
for a populated column the spacing equals `remainingSpace / actualCount`;
and an empty column emits no instructions (the count-zero branch returns
before any division). -/
theorem C5_dynamic_spacing (y0 footerY lh xpos : ℚ) (startNum : Nat)
    (items : List EqSys) :
    List.Chain' (fun b1 b2 : DrawBlock => b1.y - b2.y =
        2 * lh + dynSpacing y0 footerY lh items.length)
      (dynColumnWith y0 footerY lh xpos startNum items) ∧
    (items.length ≠ 0 → dynSpacing y0 footerY lh items.length =
      (dynAvail y0 footerY - (items.length : ℚ) * (2 * lh)) / (items.length : ℚ)) ∧
    dynColumnWith y0 footerY lh xpos startNum [] = [] := by
  refine ⟨?_, ?_, rfl⟩
  · unfold dynColumnWith
    by_cases hl : items.length = 0
    · rw [if_pos hl]
      simp
    · rw [if_neg hl]
      exact dynColLoop_chain xpos lh (dynSpacing y0 footerY lh items.length) footerY items
        startNum y0
  · intro h
    unfold dynSpacing
    rw [if_pos (Nat.pos_of_ne_zero h)]

/-- Witness for C5: a column of four items with 40 units of remaining space
gets spacing exactly 10, and the empty column yields no blocks. -/
theorem C5_dynamic_spacing_witness :
    dynSpacing (80 + 10 * mm) 0 5 (dummySystems 4).length = 10 ∧
    List.Chain' (fun b1 b2 : DrawBlock => b1.y - b2.y =
        2 * 5 + dynSpacing (80 + 10 * mm) 0 5 (dummySystems 4).length)
      (dynColumnWith (80 + 10 * mm) 0 5 0 1 (dummySystems 4)) ∧
    dynColumnWith (80 + 10 * mm) 0 5 0 1 [] = [] := by
  have h := C5_dynamic_spacing (80 + 10 * mm) 0 5 0 1 (dummySystems 4)
  refine ⟨?_, h.1, h.2.2⟩
  rw [h.2.1 (by decide)]
  have hl : (dummySystems 4).length = 4 := by decide
  rw [hl]
  unfold dynAvail
  push_cast
  norm_num

theorem dynColLoopSols_eq (lh sp footerY xpos : ℚ) :
    ∀ (items : List EqSys) (startNum : Nat) (y : ℚ),
      dynColLoopSols lh sp footerY items y =
        (dynColLoop xpos lh sp footerY startNum items y).map (fun b => b.sys.2) := by
  intro items
  induction items with
  | nil => intro n y; rfl
  | cons e rest ih =>
    intro n y
    simp only [dynColLoopSols, dynColLoop, List.map_cons]
    congr 1
    by_cases hb : (y - 2 * lh) - sp < footerY + 15 * mm
    · rw [if_pos hb, if_pos hb]
      rfl
    · rw [if_neg hb, if_neg hb]
      exact ih (n + 1) ((y - 2 * lh) - sp)

theorem pyColumnSols_eq (pageEqs : List EqSys) (startIdx : Nat) (xpos : ℚ) :
    ∀ (k eqIndex : Nat) (y : ℚ),
      pyColumnSols pageEqs eqIndex k y =
        (pyColumn pageEqs startIdx xpos eqIndex k y).map (fun b => b.sys.2) := by
  intro k
  induction k with
  | zero => intro eqIndex y; rfl
  | succ k ih =>
    intro eqIndex y
    simp only [pyColumnSols, pyColumn]
    cases hg : pageEqs.get? eqIndex with
    | none => rfl
    | some e =>
      simp only [List.map_cons]
      congr 1
      by_cases hb : pyNextY y < pyFooterY + 30 * mm
      · rw [if_pos hb, if_pos hb]
        rfl
      · rw [if_neg hb, if_neg hb]
        exact ih (eqIndex + 1) (pyNextY y)

theorem hannahColumnSols_eq (pageEqs : List EqSys) (xpos : ℚ) :
    ∀ (k eqNum : Nat) (y : ℚ),
      hannahColumnSols pageEqs eqNum k =
        (hannahColumn pageEqs xpos eqNum k y).map (fun b => b.sys.2) := by
  intro k
  induction k with
  | zero => intro eqNum y; rfl
  | succ k ih =>
    intro eqNum y
    simp only [hannahColumnSols, hannahColumn]
    cases hg : pageEqs.get? (eqNum - 1) with
    | none => rfl
    | some e =>
      simp only [List.map_cons]
      congr 1
      exact ih (eqNum + 1) (hannahNextY y e.1.length)

theorem dynColumnSolsWith_eq (y0 footerY lh xpos : ℚ) (startNum : Nat)
    (items : List EqSys) :
    dynColumnSolsWith y0 footerY lh items =
      (dynColumnWith y0 footerY lh xpos startNum items).map (fun b => b.sys.2) := by
  unfold dynColumnSolsWith dynColumnWith
  by_cases hl : items.length = 0
  · rw [if_pos hl, if_pos hl]
    rfl
  · rw [if_neg hl, if_neg hl]
    exact dynColLoopSols_eq lh (dynSpacing y0 footerY lh items.length) footerY xpos items
      startNum y0

theorem hannahPageSols_eq (pageEqs : List EqSys) (pageNum epc numColumns : Nat) :
    hannahPageSols pageEqs pageNum epc numColumns =
      (hannahPage pageEqs pageNum epc numColumns).map (fun b => b.sys.2) := by
  unfold hannahPageSols hannahPage
  rw [List.map_flatten, List.map_map]
  congr 1
  apply List.map_congr_left
  intro col _
  exact hannahColumnSols_eq pageEqs (hannahXPos numColumns col) epc
    ((pageNum - 1) * (numColumns * epc) + col * epc + 1) hannahBaseY

theorem pyPageSols_eq (allEqs : List EqSys) (epc numColumns page : Nat) :
    pyPageSols allEqs epc numColumns page =
      (pyPage allEqs epc numColumns page).map (fun b => b.sys.2) := by
  unfold pyPageSols pyPage
  rw [List.map_flatten, List.map_map]
  congr 1
  apply List.map_congr_left
  intro col _
  exact pyColumnSols_eq ((allEqs.drop (page * numColumns * epc)).take (numColumns * epc))
    (page * numColumns * epc) (pyXPos numColumns col) epc (col * epc) pyBaseY

theorem dynPageSols_eq (allEqs : List EqSys) (epc numColumns page : Nat) :
    dynPageSols allEqs epc numColumns page =
      (dynPage allEqs epc numColumns page).map (fun b => b.sys.2) := by
  unfold dynPageSols dynPage
  rw [List.map_flatten, List.map_map]
  congr 1
  apply List.map_congr_left
  intro col _
  exact dynColumnSolsWith_eq (calculate_layout numColumns).baseY
    (calculate_layout numColumns).footerY (calculate_layout numColumns).lineHeight
    (dynXPos numColumns col) (page * numColumns * epc + col * epc + 1)
    ((((allEqs.drop (page * numColumns * epc)).take (numColumns * epc)).drop
      (col * epc)).take epc)

/-- C10: on every page of each of the three layout variants, the footer's
answer-key entries are exactly one per drawn equation-system block — the
`solutions` list the footer is built from equals the drawn blocks' solution
list in column-major placement order, and the entry count equals the count
of blocks actually drawn, including when a column's loop exits early at the
item-count or bottom-boundary check. -/
theorem C10_footer_matches_drawn (pageEqs allEqs : List EqSys)
    (pageNum epc numColumns page : Nat) :
    hannahPageSols pageEqs pageNum epc numColumns =
      (hannahPage pageEqs pageNum epc numColumns).map (fun b => b.sys.2) ∧
    pyPageSols allEqs epc numColumns page =
      (pyPage allEqs epc numColumns page).map (fun b => b.sys.2) ∧
    dynPageSols allEqs epc numColumns page =
      (dynPage allEqs epc numColumns page).map (fun b => b.sys.2) ∧
    (footerEntryList (hannahPageSols pageEqs pageNum epc numColumns)).length =
      (hannahPage pageEqs pageNum epc numColumns).length ∧
    (footerEntryList (pyPageSols allEqs epc numColumns page)).length =
      (pyPage allEqs epc numColumns page).length ∧
    (footerEntryList (dynPageSols allEqs epc numColumns page)).length =
      (dynPage allEqs epc numColumns page).length := by
  have h1 := hannahPageSols_eq pageEqs pageNum epc numColumns
  have h2 := pyPageSols_eq allEqs epc numColumns page
  have h3 := dynPageSols_eq allEqs epc numColumns page
  refine ⟨h1, h2, h3, ?_, ?_, ?_⟩
  · rw [footerEntryList, List.length_map, List.enum_length, h1, List.length_map]
  · rw [footerEntryList, List.length_map, List.enum_length, h2, List.length_map]
  · rw [footerEntryList, List.length_map, List.enum_length, h3, List.length_map]

/-- C2 (amended): in every layout variant, the page footer is one entry per
placed instruction, in placement order, joined by two spaces — but the entry
number is the page-local 1-based position of the instruction among the
page's placed instructions (the enumeration index plus one), not the
document-global display index. -/
theorem C2_footer_local_numbering (pageEqs allEqs : List EqSys)
    (pageNum epc numColumns page : Nat) :
    dynPageFooter allEqs epc numColumns page =
      List.intercalate [' ', ' ']
        (((dynPage allEqs epc numColumns page).enum).map
          (fun p => footerEntry (p.1 + 1) p.2.sys.2)) ∧
    hannahPageFooter pageEqs pageNum epc numColumns =
      List.intercalate [' ', ' ']
        (((hannahPage pageEqs pageNum epc numColumns).enum).map
          (fun p => footerEntry (p.1 + 1) p.2.sys.2)) ∧
    pyPageFooter allEqs epc numColumns page =
      List.intercalate [' ', ' ']
        (((pyPage allEqs epc numColumns page).enum).map
          (fun p => footerEntry (p.1 + 1) p.2.sys.2)) := by
  refine ⟨?_, ?_, ?_⟩
  · unfold dynPageFooter footerText footerEntryList
    rw [dynPageSols_eq allEqs epc numColumns page, List.enum_map, List.map_map]
    rfl
  · unfold hannahPageFooter footerText footerEntryList
    rw [hannahPageSols_eq pageEqs pageNum epc numColumns, List.enum_map, List.map_map]
    rfl
  · unfold pyPageFooter footerText footerEntryList
    rw [pyPageSols_eq allEqs epc numColumns page, List.enum_map, List.map_map]
    rfl

theorem pyColumn_eval (pageEqs : List EqSys) (startIdx : Nat) (xpos : ℚ) :
    ∀ (k eqIndex : Nat) (y : ℚ),
      (∀ i : Nat, i + 1 < k →
        pyFooterY + 30 * mm ≤ y - ((i : ℚ) + 1) * (7 / 2 * pyLineHeight)) →
      pyColumn pageEqs startIdx xpos eqIndex k y =
        expectedBlocks xpos (7 / 2 * pyLineHeight) (startIdx + eqIndex + 1) y
          ((pageEqs.drop eqIndex).take k) := by
  intro k
  induction k with
  | zero => intro eqIndex y _; rfl
  | succ k ih =>
    intro eqIndex y h
    by_cases hlt : eqIndex < pageEqs.length
    · have hget : pageEqs.get? eqIndex = some pageEqs[eqIndex] := by
        rw [List.get?_eq_getElem?]
        exact List.getElem?_eq_getElem hlt
      have hdrop : pageEqs.drop eqIndex = pageEqs[eqIndex] :: pageEqs.drop (eqIndex + 1) :=
        List.drop_eq_getElem_cons hlt
      rw [hdrop, List.take_succ_cons]
      simp only [pyColumn, hget]
      rw [show expectedBlocks xpos (7 / 2 * pyLineHeight) (startIdx + eqIndex + 1) y
        (pageEqs[eqIndex] :: (pageEqs.drop (eqIndex + 1)).take k) =
        (⟨startIdx + eqIndex + 1, pageEqs[eqIndex], xpos, y⟩ : DrawBlock) ::
          expectedBlocks xpos (7 / 2 * pyLineHeight) (startIdx + eqIndex + 1 + 1)
            (y - 7 / 2 * pyLineHeight) ((pageEqs.drop (eqIndex + 1)).take k) from rfl]
      congr 1
      cases k with
      | zero =>
        by_cases hb : pyNextY y < pyFooterY + 30 * mm
        · rw [if_pos hb]
          rfl
        · rw [if_neg hb]
          rfl
      | succ k2 =>
        have hb : ¬ (pyNextY y < pyFooterY + 30 * mm) := by
          apply not_lt.mpr
          have h0 := h 0 (by omega)
          push_cast at h0
          unfold pyNextY
          linarith
        rw [if_neg hb]
        have := ih (eqIndex + 1) (pyNextY y) ?_
        · rw [this]
          rfl
        · intro i hi
          have hstep := h (i + 1) (by omega)
          push_cast at hstep
          push_cast
          unfold pyNextY
          linarith
    · have hget : pageEqs.get? eqIndex = none := List.get?_eq_none.mpr (by omega)
      have hdrop : pageEqs.drop eqIndex = [] := List.drop_eq_nil_of_le (by omega)
      rw [hdrop]
      simp only [pyColumn, hget]
      rfl

theorem hannahColumn_map_eqNum (pageEqs : List EqSys) (xpos : ℚ) :
    ∀ (k eqNum : Nat) (y : ℚ), 1 ≤ eqNum → eqNum - 1 + k ≤ pageEqs.length →
      (hannahColumn pageEqs xpos eqNum k y).map DrawBlock.eqNum =
        List.range' eqNum k := by
  intro k
  induction k with
  | zero => intro eqNum y _ _; rfl
  | succ k ih =>
    intro eqNum y h1 h2
    have hlt : eqNum - 1 < pageEqs.length := by omega
    have hget : pageEqs.get? (eqNum - 1) = some pageEqs[eqNum - 1] := by
      rw [List.get?_eq_getElem?]
      exact List.getElem?_eq_getElem hlt
    simp only [hannahColumn, hget, List.map_cons]
    rw [ih (eqNum + 1) (hannahNextY y (pageEqs[eqNum - 1].1.length)) (by omega) (by omega)]
    rfl

theorem hannahColumn_out_of_range (pageEqs : List EqSys) (xpos : ℚ) (eqNum k : Nat) (y : ℚ)
    (h : pageEqs.length ≤ eqNum - 1) :
    hannahColumn pageEqs xpos eqNum k y = [] := by
  cases k with
  | zero => rfl
  | succ k =>
    have hget : pageEqs.get? (eqNum - 1) = none := List.get?_eq_none.mpr h
    simp only [hannahColumn, hget]

theorem hannahPage_out_of_range (pageEqs : List EqSys) (pageNum epc numColumns : Nat)
    (h : pageEqs.length ≤ (pageNum - 1) * (numColumns * epc)) :
    hannahPage pageEqs pageNum epc numColumns = [] := by
  unfold hannahPage
  apply List.flatten_eq_nil_iff.mpr
  intro l hl
  rw [List.mem_map] at hl
  obtain ⟨col, hcol, rfl⟩ := hl
  apply hannahColumn_out_of_range
  omega

theorem hannahPage_map_eqNum (pageEqs : List EqSys) (epc numColumns : Nat)
    (h : numColumns * epc ≤ pageEqs.length) :
    (hannahPage pageEqs 1 epc numColumns).map DrawBlock.eqNum =
      ((List.range numColumns).map (fun col => List.range' (col * epc + 1) epc)).flatten := by
  unfold hannahPage
  rw [List.map_flatten, List.map_map]
  congr 1
  apply List.map_congr_left
  intro col hcol
  rw [List.mem_range] at hcol
  have h5 : (col + 1) * epc = col * epc + epc := by ring
  have h4 : (col + 1) * epc ≤ numColumns * epc := Nat.mul_le_mul_right epc hcol
  show (hannahColumn pageEqs (hannahXPos numColumns col)
      ((1 - 1) * (numColumns * epc) + col * epc + 1) epc hannahBaseY).map DrawBlock.eqNum = _
  rw [hannahColumn_map_eqNum pageEqs (hannahXPos numColumns col) epc
    ((1 - 1) * (numColumns * epc) + col * epc + 1) hannahBaseY (by omega) (by omega)]
  congr 1
  omega

theorem dynColumnWith_no_drop (y0 footerY lh xpos : ℚ) (startNum : Nat) (items : List EqSys)
    (h : ∀ i : Nat, i + 1 < items.length →
      footerY + 15 * mm ≤ y0 - ((i : ℚ) + 1) *
        (2 * lh + dynSpacing y0 footerY lh items.length)) :
    dynColumnWith y0 footerY lh xpos startNum items =
      expectedBlocks xpos (2 * lh + dynSpacing y0 footerY lh items.length) startNum y0
        items := by
  unfold dynColumnWith
  by_cases hl : items.length = 0
  · rw [if_pos hl]
    have he : items = [] := List.length_eq_zero.mp hl
    subst he
    rfl
  · rw [if_neg hl]
    exact dynColLoop_no_drop xpos lh (dynSpacing y0 footerY lh items.length) footerY items
      startNum y0 h

theorem dynPage_no_drop_eval (allEqs : List EqSys) (epc numColumns page : Nat)
    (hfull : (page + 1) * (numColumns * epc) ≤ allEqs.length)
    (hnd : ∀ i : Nat, i + 1 < epc →
      (calculate_layout numColumns).footerY + 15 * mm ≤
        (calculate_layout numColumns).baseY - ((i : ℚ) + 1) *
          (2 * (calculate_layout numColumns).lineHeight +
            dynSpacing (calculate_layout numColumns).baseY
              (calculate_layout numColumns).footerY
              (calculate_layout numColumns).lineHeight epc)) :
    dynPage allEqs epc numColumns page =
      ((List.range numColumns).map (fun col =>
        expectedBlocks (dynXPos numColumns col)
          (2 * (calculate_layout numColumns).lineHeight +
            dynSpacing (calculate_layout numColumns).baseY
              (calculate_layout numColumns).footerY
              (calculate_layout numColumns).lineHeight epc)
          (page * numColumns * epc + col * epc + 1)
          (calculate_layout numColumns).baseY
          ((((allEqs.drop (page * numColumns * epc)).take (numColumns * epc)).drop
            (col * epc)).take epc))).flatten := by
  unfold dynPage
  congr 1
  apply List.map_congr_left
  intro col hcol
  rw [List.mem_range] at hcol
  have hassoc : page * numColumns * epc = page * (numColumns * epc) := by ring
  have hmul : (page + 1) * (numColumns * epc) =
      page * (numColumns * epc) + numColumns * epc := by ring
  have hslice : ((allEqs.drop (page * numColumns * epc)).take (numColumns * epc)).length =
      numColumns * epc := by
    rw [List.length_take, List.length_drop]
    omega
  have h5 : (col + 1) * epc = col * epc + epc := by ring
  have h4 : (col + 1) * epc ≤ numColumns * epc := Nat.mul_le_mul_right epc hcol
  have hlen : ((((allEqs.drop (page * numColumns * epc)).take (numColumns * epc)).drop
      (col * epc)).take epc).length = epc := by
    rw [List.length_take, List.length_drop, hslice]
    omega
  have hconv : dynSpacing (calculate_layout numColumns).baseY
      (calculate_layout numColumns).footerY (calculate_layout numColumns).lineHeight
      ((((allEqs.drop (page * numColumns * epc)).take (numColumns * epc)).drop
        (col * epc)).take epc).length =
      dynSpacing (calculate_layout numColumns).baseY
        (calculate_layout numColumns).footerY (calculate_layout numColumns).lineHeight
        epc := by
    rw [hlen]
  rw [← hconv]
  apply dynColumnWith_no_drop
  intro i hi
  rw [hlen] at hi
  rw [hconv]
  exact hnd i hi

theorem expectedBlocks_map_sol (xpos adv : ℚ) :
    ∀ (items : List EqSys) (n : Nat) (y : ℚ),
      (expectedBlocks xpos adv n y items).map (fun b => b.sys.2) =
        items.map (fun e => e.2) := by
  intro items
  induction items with
  | nil => intro n y; rfl
  | cons e rest ih =>
    intro n y
    unfold expectedBlocks
    rw [List.map_cons, ih]
    rfl

theorem pyPage_eval (allEqs : List EqSys) (epc numColumns page : Nat)
    (hnb : ∀ i : Nat, i + 1 < epc →
      pyFooterY + 30 * mm ≤ pyBaseY - ((i : ℚ) + 1) * (7 / 2 * pyLineHeight)) :
    pyPage allEqs epc numColumns page =
      ((List.range numColumns).map (fun col =>
        expectedBlocks (pyXPos numColumns col) (7 / 2 * pyLineHeight)
          (page * numColumns * epc + col * epc + 1) pyBaseY
          ((((allEqs.drop (page * numColumns * epc)).take (numColumns * epc)).drop
            (col * epc)).take epc))).flatten := by
  unfold pyPage
  congr 1
  apply List.map_congr_left
  intro col _
  exact pyColumn_eval ((allEqs.drop (page * numColumns * epc)).take (numColumns * epc))
    (page * numColumns * epc) (pyXPos numColumns col) epc (col * epc) pyBaseY hnb

theorem dynSlice_length (allEqs : List EqSys) (epc numColumns page col : Nat)
    (hfull : (page + 1) * (numColumns * epc) ≤ allEqs.length) (hcol : col < numColumns) :
    ((((allEqs.drop (page * numColumns * epc)).take (numColumns * epc)).drop
      (col * epc)).take epc).length = epc := by
  have hassoc : page * numColumns * epc = page * (numColumns * epc) := by ring
  have hmul : (page + 1) * (numColumns * epc) =
      page * (numColumns * epc) + numColumns * epc := by ring
  have hslice : ((allEqs.drop (page * numColumns * epc)).take (numColumns * epc)).length =
      numColumns * epc := by
    rw [List.length_take, List.length_drop]
    omega
  have h5 : (col + 1) * epc = col * epc + epc := by ring
  have h4 : (col + 1) * epc ≤ numColumns * epc := Nat.mul_le_mul_right epc hcol
  rw [List.length_take, List.length_drop, hslice]
  omega

/-- C2 counterexample: on the second page (0-based page 1) of the dynamic-fit
variant with 3 columns and 5 caller-supplied equations per column over 30
systems, the footer numbers its entries 1..15 (page-locally), not 16..30 as
the claimed document-global display index would require, so the produced
footer differs from the spec-described one. -/
theorem C2_footer_cex :
    dynPageFooter (dummySystems 30) 5 3 1 ≠
      List.intercalate [' ', ' ']
        (specDisplayIndexEntryList (dynPage (dummySystems 30) 5 3 1)) := by
  have hnd : ∀ i : Nat, i + 1 < 5 →
      (calculate_layout 3).footerY + 15 * mm ≤
        (calculate_layout 3).baseY - ((i : ℚ) + 1) *
          (2 * (calculate_layout 3).lineHeight +
            dynSpacing (calculate_layout 3).baseY (calculate_layout 3).footerY
              (calculate_layout 3).lineHeight 5) := by
    intro i hi
    have hi4 : i < 4 := by omega
    interval_cases i <;>
      norm_num [calculate_layout, dynSpacing, dynAvail, letterH, mm]
  have hpage := dynPage_no_drop_eval (dummySystems 30) 5 3 1 (by decide) hnd
  have hfoot : dynPageFooter (dummySystems 30) 5 3 1 =
      footerText ((dynPage (dummySystems 30) 5 3 1).map (fun b => b.sys.2)) := by
    unfold dynPageFooter
    rw [dynPageSols_eq]
  rw [hfoot, hpage]
  unfold specDisplayIndexEntryList
  decide

/-- C3: the fixed-count pagination claim holds for the
`generate_liner_equation_system.py` variant — with numColumns=3,
itemsPerColumn=5 its page 0 draws global numbers 1..15 and page 1 draws
16..30 — but the Hannah variant's `print_page` diverges: handed the second
page's 15-item slice with page_num=2, it indexes the slice with the
document-global number and draws nothing at all, while its first page
draws 1..15 as claimed. -/
theorem C3_fixed_count_pagination :
    (pyPage (dummySystems 30) 5 3 0).map DrawBlock.eqNum = List.range' 1 15 ∧
    (pyPage (dummySystems 30) 5 3 1).map DrawBlock.eqNum = List.range' 16 15 ∧
    (hannahPage ((dummySystems 30).take 15) 1 5 3).map DrawBlock.eqNum =
      List.range' 1 15 ∧
    hannahPage ((dummySystems 30).drop 15) 2 5 3 = [] := by
  have hnb : ∀ i : Nat, i + 1 < 5 →
      pyFooterY + 30 * mm ≤ pyBaseY - ((i : ℚ) + 1) * (7 / 2 * pyLineHeight) := by
    intro i hi
    have hi4 : i < 4 := by omega
    interval_cases i <;>
      norm_num [pyFooterY, pyBaseY, pyLineHeight, letterH, mm]
  refine ⟨?_, ?_, ?_, ?_⟩
  · rw [pyPage_eval (dummySystems 30) 5 3 0 hnb]
    decide
  · rw [pyPage_eval (dummySystems 30) 5 3 1 hnb]
    decide
  · decide
  · decide

/-- C6 counterexample: `calculate_layout` does derive the capacity
floor((baseY - footerY) / (2 * lineHeight)) = 17 and stores it, but the
dynamic-fit page is laid out with the caller-supplied equations_per_column
instead: called with 4 per column over 3 columns, page 0 draws the 12
systems numbered 1..12 — not 3 * 17 = 51 items — so itemsPerColumn is
supplied by the caller, contrary to the claim. -/
theorem C6_items_per_column_cex :
    (calculate_layout 3).equationsPerColumn = 17 ∧
    (dynPage (dummySystems 60) 4 3 0).map DrawBlock.eqNum = List.range' 1 12 ∧
    (dynPage (dummySystems 60) 4 3 0).length ≠ 3 * (calculate_layout 3).equationsPerColumn := by
  have h17 : (calculate_layout 3).equationsPerColumn = 17 := by
    norm_num [calculate_layout, letterH, mm]
    decide
  have hnd : ∀ i : Nat, i + 1 < 4 →
      (calculate_layout 3).footerY + 15 * mm ≤
        (calculate_layout 3).baseY - ((i : ℚ) + 1) *
          (2 * (calculate_layout 3).lineHeight +
            dynSpacing (calculate_layout 3).baseY (calculate_layout 3).footerY
              (calculate_layout 3).lineHeight 4) := by
    intro i hi
    have hi3 : i < 3 := by omega
    interval_cases i <;>
      norm_num [calculate_layout, dynSpacing, dynAvail, letterH, mm]
  have hpage := dynPage_no_drop_eval (dummySystems 60) 4 3 0 (by decide) hnd
  refine ⟨h17, ?_, ?_⟩
  · rw [hpage]
    decide
  · rw [hpage, h17]
    decide

/-- C6 (amended): `calculate_layout` derives and stores the space-based
capacity equationsPerColumn = floor((baseY - footerY) / (2 * lineHeight)),
but `create_pdf` does not use it: whenever the input suffices and no
bottom-boundary break fires, a dynamic-fit page draws exactly
numColumns * epc systems for the caller-supplied equations_per_column
`epc`, whatever the stored derived value is. -/
theorem C6_derived_capacity_unused (allEqs : List EqSys) (epc numColumns page : Nat)
    (hfull : (page + 1) * (numColumns * epc) ≤ allEqs.length)
    (hnd : ∀ i : Nat, i + 1 < epc →
      (calculate_layout numColumns).footerY + 15 * mm ≤
        (calculate_layout numColumns).baseY - ((i : ℚ) + 1) *
          (2 * (calculate_layout numColumns).lineHeight +
            dynSpacing (calculate_layout numColumns).baseY
              (calculate_layout numColumns).footerY
              (calculate_layout numColumns).lineHeight epc)) :
    (calculate_layout numColumns).equationsPerColumn =
      (⌊((calculate_layout numColumns).baseY - (calculate_layout numColumns).footerY) /
        (2 * (calculate_layout numColumns).lineHeight)⌋).toNat ∧
    (dynPage allEqs epc numColumns page).length = numColumns * epc := by
  refine ⟨rfl, ?_⟩
  rw [dynPage_no_drop_eval allEqs epc numColumns page hfull hnd]
  rw [List.length_flatten, List.map_map]
  have hrep : ((List.range numColumns).map
      (List.length ∘ fun col =>
        expectedBlocks (dynXPos numColumns col)
          (2 * (calculate_layout numColumns).lineHeight +
            dynSpacing (calculate_layout numColumns).baseY
              (calculate_layout numColumns).footerY
              (calculate_layout numColumns).lineHeight epc)
          (page * numColumns * epc + col * epc + 1)
          (calculate_layout numColumns).baseY
          ((((allEqs.drop (page * numColumns * epc)).take (numColumns * epc)).drop
            (col * epc)).take epc))) = List.replicate numColumns epc := by
    rw [List.eq_replicate_iff]
    refine ⟨by rw [List.length_map, List.length_range], ?_⟩
    intro b hb
    rw [List.mem_map] at hb
    obtain ⟨col, hcol, rfl⟩ := hb
    rw [List.mem_range] at hcol
    show (expectedBlocks _ _ _ _ _).length = epc
    rw [expectedBlocks_length]
    exact dynSlice_length allEqs epc numColumns page col hfull hcol
  rw [hrep, List.sum_replicate, smul_eq_mul]

/-- Witness for C6_derived_capacity_unused at 60 systems, 3 columns,
caller-supplied 4 equations per column, page 0. -/
theorem C6_derived_capacity_unused_witness :
    (calculate_layout 3).equationsPerColumn =
      (⌊((calculate_layout 3).baseY - (calculate_layout 3).footerY) /
        (2 * (calculate_layout 3).lineHeight)⌋).toNat ∧
    (dynPage (dummySystems 60) 4 3 0).length = 3 * 4 :=
  C6_derived_capacity_unused (dummySystems 60) 4 3 0 (by decide)
    (by
      intro i hi
      have hi3 : i < 3 := by omega
      interval_cases i <;>
        norm_num [calculate_layout, dynSpacing, dynAvail, letterH, mm])
